import Mathlib

/-!
Verification of the multisource-fastapi requirement-extraction core.

The Python services are shallowly embedded: strings are `String`/`List Char`,
Python dicts holding story records become a `Story` structure, numpy vectors
become `List ℚ`, and external collaborators (the sentence-embedding model, the
spaCy parser, WordNet, sklearn's pairwise cosine similarity, Python's
unordered-set enumeration and the uuid supply) are explicit parameters of the
embedded functions.
-/

namespace MS

/-! ## Python string primitives -/

/-- Characters matched by Python's regex `\s` in ASCII, which are also the
characters removed by `str.strip()` with no argument (for ASCII text):
space, tab, newline, carriage return, vertical tab, form feed. -/
def pyWs (c : Char) : Bool :=
  c.toNat == 32 || c.toNat == 9 || c.toNat == 10 ||
  c.toNat == 13 || c.toNat == 11 || c.toNat == 12

/-- Model of Python `str.lstrip` for a character predicate. -/
def pyLstrip (p : Char → Bool) (l : List Char) : List Char := l.dropWhile p

/-- Model of Python `str.rstrip` for a character predicate. -/
def pyRstrip (p : Char → Bool) (l : List Char) : List Char :=
  (l.reverse.dropWhile p).reverse

/-- Model of Python `str.strip(chars)`: drop characters satisfying `p` from
both ends of the string. -/
def pyStrip (p : Char → Bool) (l : List Char) : List Char :=
  pyRstrip p (pyLstrip p l)

/-- Model of `_ws_re.sub(" ", s)` where `_ws_re = re.compile(r"\s+")`: replace
every maximal run of whitespace characters by a single space.  The boolean
flag records whether the previous character was whitespace. -/
def wsSubAux : Bool → List Char → List Char
  | _, [] => []
  | prev, c :: cs =>
    if pyWs c then
      if prev then wsSubAux true cs else ' ' :: wsSubAux true cs
    else c :: wsSubAux false cs

/-- Replace every maximal whitespace run by a single space. -/
def wsSub (l : List Char) : List Char := wsSubAux false l

/-- Code points of the characters stripped at the ends by
`clustering_service._normalize_key`, namely the Python literal
`"\"'()[]{}" "''"`: double quote, apostrophe, parentheses, square and curly
brackets. -/
def clusterPunct (c : Char) : Bool :=
  c.toNat == 34 || c.toNat == 39 || c.toNat == 40 || c.toNat == 41 ||
  c.toNat == 91 || c.toNat == 93 || c.toNat == 123 || c.toNat == 125

/-- Code points stripped at the ends by
`usecase_diagram_service._normalize_key`: the same set plus the curly
quotation marks U+201C, U+201D, U+2018, U+2019. -/
def ucPunct (c : Char) : Bool :=
  clusterPunct c || c.toNat == 8220 || c.toNat == 8221 ||
  c.toNat == 8216 || c.toNat == 8217

/-- Model of Python `str.lower` for ASCII text; agrees with `Char.toLower`. -/
def pyLowerStr (l : List Char) : List Char := l.map Char.toLower

end MS

namespace ClusteringService

/-- Embedding of `clustering_service._normalize_key`: empty string maps to
itself; otherwise strip whitespace, then strip edge quotes/brackets, collapse
whitespace runs to single spaces, and lowercase. -/
def normalize_key (s : String) : String :=
  if s = "" then ""
  else String.mk (MS.pyLowerStr (MS.wsSub (MS.pyStrip MS.clusterPunct (MS.pyStrip MS.pyWs s.data))))

end ClusteringService

namespace UsecaseDiagramService

/-- Embedding of `usecase_diagram_service._normalize_key`: identical pipeline
with the slightly larger strip set (adds curly quotes). -/
def normalize_key (s : String) : String :=
  if s = "" then ""
  else String.mk (MS.pyLowerStr (MS.wsSub (MS.pyStrip MS.ucPunct (MS.pyStrip MS.pyWs s.data))))

end UsecaseDiagramService

namespace MS

/-! ## Facts about the string primitives, used for the normalization claims -/

theorem dropWhile_eq_self_of_head {α : Type} (p : α → Bool) (l : List α)
    (h : ∀ c ∈ l.head?, p c = false) : l.dropWhile p = l := by
  cases l with
  | nil => rfl
  | cons c cs =>
    have hc : p c = false := h c rfl
    simp [List.dropWhile_cons, hc]

theorem dropWhile_eq_self_of_all {α : Type} (p : α → Bool) (l : List α)
    (h : ∀ c ∈ l, p c = false) : l.dropWhile p = l := by
  cases l with
  | nil => rfl
  | cons a as =>
    have ha : p a = false := h a (by simp)
    simp [List.dropWhile_cons, ha]

theorem pyStrip_eq_self_of_all (p : Char → Bool) (l : List Char)
    (h : ∀ c ∈ l, p c = false) : pyStrip p l = l := by
  unfold pyStrip pyLstrip pyRstrip
  rw [dropWhile_eq_self_of_all p l h]
  rw [dropWhile_eq_self_of_all p l.reverse (fun c hc => h c (List.mem_reverse.mp hc))]
  exact List.reverse_reverse l

theorem pyStrip_eq_self_of_edges (p : Char → Bool) (l : List Char)
    (hh : ∀ c ∈ l.head?, p c = false) (hl : ∀ c ∈ l.getLast?, p c = false) :
    pyStrip p l = l := by
  unfold pyStrip pyLstrip pyRstrip
  rw [dropWhile_eq_self_of_head p l hh]
  rw [dropWhile_eq_self_of_head p l.reverse (by simpa [List.head?_reverse] using hl)]
  exact List.reverse_reverse l

/-- A string is in collapsed form (relative to a previous-was-whitespace flag)
when every whitespace character in it is a plain space not preceded by other
whitespace. -/
def collapsedAux : Bool → List Char → Bool
  | _, [] => true
  | prev, c :: cs =>
    if pyWs c then (c == ' ') && !prev && collapsedAux true cs
    else collapsedAux false cs

theorem collapsedAux_wsSubAux : ∀ (l : List Char) (b : Bool),
    collapsedAux b (wsSubAux b l) = true := by
  intro l
  induction l with
  | nil => intro b; rfl
  | cons c cs ih =>
    intro b
    by_cases h : pyWs c
    · cases b with
      | true => simpa [wsSubAux, h] using ih true
      | false =>
        have hsp : pyWs ' ' = true := by decide
        simp [wsSubAux, h, collapsedAux, hsp]
        exact ih true
    · simp only [wsSubAux, if_neg h]
      simpa [collapsedAux, h] using ih false

theorem wsSubAux_eq_self_of_collapsed : ∀ (l : List Char) (b : Bool),
    collapsedAux b l = true → wsSubAux b l = l := by
  intro l
  induction l with
  | nil => intro b _; rfl
  | cons c cs ih =>
    intro b hb
    by_cases h : pyWs c
    · simp only [collapsedAux, if_pos h, Bool.and_eq_true, Bool.not_eq_true',
        beq_iff_eq] at hb
      obtain ⟨⟨hc, hprev⟩, hrest⟩ := hb
      subst hprev
      simp only [wsSubAux, if_pos h, if_neg Bool.false_ne_true]
      rw [ih true hrest, hc]
    · simp only [collapsedAux, if_neg h] at hb
      simp only [wsSubAux, if_neg h]
      rw [ih false hb]

theorem isValidChar_of_le (n : Nat) (h : n ≤ 122) : n.isValidChar :=
  Or.inl (by omega)

theorem toNat_ofNat_of_valid (n : Nat) (h : n.isValidChar) :
    (Char.ofNat n).toNat = n := by
  unfold Char.ofNat
  rw [dif_pos h]
  rfl

theorem toNat_toLower (c : Char) :
    Char.toLower c = if 65 ≤ c.toNat ∧ c.toNat ≤ 90 then Char.ofNat (c.toNat + 32) else c := by
  rfl

theorem toNat_toLower_upper (c : Char) (h : 65 ≤ c.toNat ∧ c.toNat ≤ 90) :
    (Char.toLower c).toNat = c.toNat + 32 := by
  rw [toNat_toLower, if_pos h]
  exact toNat_ofNat_of_valid _ (isValidChar_of_le _ (by omega))

theorem toLower_eq_self_of_not_upper (c : Char) (h : ¬ (65 ≤ c.toNat ∧ c.toNat ≤ 90)) :
    Char.toLower c = c := by
  rw [toNat_toLower, if_neg h]

theorem toLower_toLower (c : Char) :
    Char.toLower (Char.toLower c) = Char.toLower c := by
  by_cases h : 65 ≤ c.toNat ∧ c.toNat ≤ 90
  · apply toLower_eq_self_of_not_upper
    rw [toNat_toLower_upper c h]
    omega
  · rw [toLower_eq_self_of_not_upper c h]
    exact toLower_eq_self_of_not_upper c h

theorem beq_nat_false (a b : Nat) (h : a ≠ b) : (a == b) = false := by
  simpa using h

theorem pyWs_toLower (c : Char) : pyWs (Char.toLower c) = pyWs c := by
  by_cases h : 65 ≤ c.toNat ∧ c.toNat ≤ 90
  · have h1 : (Char.toLower c).toNat = c.toNat + 32 := toNat_toLower_upper c h
    simp only [pyWs, h1]
    rw [beq_nat_false _ 32 (by omega), beq_nat_false _ 9 (by omega),
      beq_nat_false _ 10 (by omega), beq_nat_false _ 13 (by omega),
      beq_nat_false _ 11 (by omega), beq_nat_false _ 12 (by omega),
      beq_nat_false c.toNat 32 (by omega), beq_nat_false c.toNat 9 (by omega),
      beq_nat_false c.toNat 10 (by omega), beq_nat_false c.toNat 13 (by omega),
      beq_nat_false c.toNat 11 (by omega), beq_nat_false c.toNat 12 (by omega)]
  · rw [toLower_eq_self_of_not_upper c h]

theorem clusterPunct_toLower (c : Char) :
    clusterPunct (Char.toLower c) = clusterPunct c := by
  by_cases h : 65 ≤ c.toNat ∧ c.toNat ≤ 90
  · have h1 : (Char.toLower c).toNat = c.toNat + 32 := toNat_toLower_upper c h
    simp only [clusterPunct, h1]
    rw [beq_nat_false _ 34 (by omega), beq_nat_false _ 39 (by omega),
      beq_nat_false _ 40 (by omega), beq_nat_false _ 41 (by omega),
      beq_nat_false _ 91 (by omega), beq_nat_false _ 93 (by omega),
      beq_nat_false _ 123 (by omega), beq_nat_false _ 125 (by omega),
      beq_nat_false c.toNat 34 (by omega), beq_nat_false c.toNat 39 (by omega),
      beq_nat_false c.toNat 40 (by omega), beq_nat_false c.toNat 41 (by omega),
      beq_nat_false c.toNat 91 (by omega), beq_nat_false c.toNat 93 (by omega),
      beq_nat_false c.toNat 123 (by omega), beq_nat_false c.toNat 125 (by omega)]
  · rw [toLower_eq_self_of_not_upper c h]

theorem ucPunct_toLower (c : Char) : ucPunct (Char.toLower c) = ucPunct c := by
  by_cases h : 65 ≤ c.toNat ∧ c.toNat ≤ 90
  · have h1 : (Char.toLower c).toNat = c.toNat + 32 := toNat_toLower_upper c h
    simp only [ucPunct, clusterPunct_toLower, h1]
    rw [beq_nat_false _ 8220 (by omega), beq_nat_false _ 8221 (by omega),
      beq_nat_false _ 8216 (by omega), beq_nat_false _ 8217 (by omega),
      beq_nat_false c.toNat 8220 (by omega), beq_nat_false c.toNat 8221 (by omega),
      beq_nat_false c.toNat 8216 (by omega), beq_nat_false c.toNat 8217 (by omega)]
  · rw [toLower_eq_self_of_not_upper c h]

theorem collapsedAux_map_toLower : ∀ (l : List Char) (b : Bool),
    collapsedAux b l = true → collapsedAux b (l.map Char.toLower) = true := by
  intro l
  induction l with
  | nil => intro b _; rfl
  | cons c cs ih =>
    intro b hb
    by_cases h : pyWs c
    · simp only [collapsedAux, if_pos h, Bool.and_eq_true, Bool.not_eq_true',
        beq_iff_eq] at hb
      obtain ⟨⟨hc, hprev⟩, hrest⟩ := hb
      subst hc
      have hsp : Char.toLower ' ' = ' ' := by decide
      simp only [List.map_cons, hsp, collapsedAux, if_pos (show pyWs ' ' = true by decide)]
      simp [hprev, ih true hrest]
    · have h2 : pyWs (Char.toLower c) = false := by
        rw [pyWs_toLower]
        exact Bool.of_not_eq_true h
      simp only [collapsedAux, if_neg h] at hb
      simp only [List.map_cons, collapsedAux, h2]
      simpa using ih false hb

end MS

namespace MS

theorem head?_dropWhile (p : Char → Bool) (l : List Char) :
    ∀ c ∈ (l.dropWhile p).head?, p c = false := by
  induction l with
  | nil => intro c hc; simp at hc
  | cons a as ih =>
    intro c hc
    by_cases h : p a
    · rw [List.dropWhile_cons, if_pos h] at hc
      exact ih c hc
    · rw [List.dropWhile_cons, if_neg h] at hc
      simp only [List.head?_cons, Option.mem_def, Option.some.injEq] at hc
      rw [← hc]
      exact Bool.of_not_eq_true h

theorem head?_eq_of_front {α : Type} {x m : List α} (h : x <+: m) (hx : x ≠ []) :
    x.head? = m.head? := by
  obtain ⟨t, rfl⟩ := h
  cases x with
  | nil => exact absurd rfl hx
  | cons a as => rfl

theorem wsSubAux_cons (b : Bool) (c : Char) (cs : List Char) :
    wsSubAux b (c :: cs) =
      if pyWs c then
        (if b then wsSubAux true cs else ' ' :: wsSubAux true cs)
      else c :: wsSubAux false cs := rfl

theorem pyRstrip_front (p : Char → Bool) (m : List Char) : pyRstrip p m <+: m := by
  unfold pyRstrip
  apply List.reverse_suffix.mp
  rw [List.reverse_reverse]
  exact List.dropWhile_suffix p

theorem getLast?_pyRstrip (p : Char → Bool) (m : List Char) :
    ∀ c ∈ (pyRstrip p m).getLast?, p c = false := by
  intro c hc
  unfold pyRstrip at hc
  rw [List.getLast?_reverse] at hc
  exact head?_dropWhile p m.reverse c hc

theorem head?_pyStrip_ws (l : List Char) :
    ∀ c ∈ (pyStrip pyWs l).head?, pyWs c = false := by
  intro c hc
  by_cases hz : pyRstrip pyWs (pyLstrip pyWs l) = []
  · unfold pyStrip at hc
    rw [hz] at hc
    simp at hc
  · unfold pyStrip at hc
    rw [head?_eq_of_front (pyRstrip_front pyWs (pyLstrip pyWs l)) hz] at hc
    exact head?_dropWhile pyWs l c hc

theorem getLast?_pyStrip_ws (l : List Char) :
    ∀ c ∈ (pyStrip pyWs l).getLast?, pyWs c = false :=
  getLast?_pyRstrip pyWs (pyLstrip pyWs l)

theorem wsSubAux_ne_nil : ∀ (l : List Char) (b : Bool),
    (∃ c ∈ l, pyWs c = false) → wsSubAux b l ≠ [] := by
  intro l
  induction l with
  | nil => intro b h; obtain ⟨c, hc, _⟩ := h; simp at hc
  | cons a as ih =>
    intro b h
    by_cases ha : pyWs a
    · have h2 : ∃ c ∈ as, pyWs c = false := by
        obtain ⟨c, hc, hcf⟩ := h
        rcases List.mem_cons.mp hc with rfl | hmem
        · rw [ha] at hcf; exact absurd hcf (by simp)
        · exact ⟨c, hmem, hcf⟩
      cases b with
      | true => simpa [wsSubAux, ha] using ih true h2
      | false => simp [wsSubAux, ha]
    · simp [wsSubAux, ha]

theorem getLast?_wsSubAux : ∀ (l : List Char) (b : Bool),
    (∀ c ∈ l.getLast?, pyWs c = false) →
    ∀ c ∈ (wsSubAux b l).getLast?, pyWs c = false := by
  intro l
  induction l with
  | nil => intro b _ c hc; simp [wsSubAux] at hc
  | cons a as ih =>
    intro b h c hc
    cases as with
    | nil =>
      have ha : pyWs a = false := h a (by simp)
      rw [wsSubAux_cons, if_neg (by simp [ha])] at hc
      simp only [wsSubAux, List.getLast?_singleton, Option.mem_def,
        Option.some.injEq] at hc
      rw [← hc]; exact ha
    | cons a2 as2 =>
      have htail : ∀ c ∈ (a2 :: as2).getLast?, pyWs c = false := by
        intro c hc2
        apply h
        rw [List.getLast?_cons_cons]
        exact hc2
      have hlastmem : ∃ x ∈ a2 :: as2, pyWs x = false := by
        cases hlx : (a2 :: as2).getLast? with
        | none => simp at hlx
        | some x =>
          exact ⟨x, List.mem_of_getLast?_eq_some hlx, htail x (by rw [hlx]; rfl)⟩
      by_cases ha : pyWs a
      · cases b with
        | true =>
          rw [wsSubAux_cons, if_pos ha, if_pos rfl] at hc
          exact ih true htail c hc
        | false =>
          rw [wsSubAux_cons, if_pos ha, if_neg (by simp)] at hc
          cases hw : wsSubAux true (a2 :: as2) with
          | nil => exact absurd hw (wsSubAux_ne_nil (a2 :: as2) true hlastmem)
          | cons w ws =>
            rw [hw, List.getLast?_cons_cons] at hc
            apply ih true htail
            rw [hw]
            exact hc
      · rw [wsSubAux_cons, if_neg ha] at hc
        cases hw : wsSubAux false (a2 :: as2) with
        | nil => exact absurd hw (wsSubAux_ne_nil (a2 :: as2) false hlastmem)
        | cons w ws =>
          rw [hw, List.getLast?_cons_cons] at hc
          apply ih false htail
          rw [hw]
          exact hc

theorem head?_wsSub (l : List Char) (h : ∀ c ∈ l.head?, pyWs c = false) :
    ∀ c ∈ (wsSub l).head?, pyWs c = false := by
  intro c hc
  cases l with
  | nil => simp [wsSub, wsSubAux] at hc
  | cons a as =>
    have ha : pyWs a = false := h a rfl
    unfold wsSub wsSubAux at hc
    rw [if_neg (by rw [ha]; simp)] at hc
    simp only [List.head?_cons, Option.mem_def, Option.some.injEq] at hc
    rw [← hc]; exact ha

theorem head?_map_pred (f : Char → Char) (P : Char → Bool)
    (hP : ∀ c, P (f c) = P c) (l : List Char)
    (h : ∀ c ∈ l.head?, P c = false) :
    ∀ c ∈ (l.map f).head?, P c = false := by
  intro c hc
  cases l with
  | nil => simp at hc
  | cons a as =>
    simp only [List.map_cons, List.head?_cons, Option.mem_def, Option.some.injEq] at hc
    rw [← hc, hP]
    exact h a rfl

theorem getLast?_map_pred (f : Char → Char) (P : Char → Bool)
    (hP : ∀ c, P (f c) = P c) : ∀ (l : List Char),
    (∀ c ∈ l.getLast?, P c = false) →
    ∀ c ∈ (l.map f).getLast?, P c = false := by
  intro l
  induction l with
  | nil => intro _ c hc; simp at hc
  | cons a as ih =>
    intro h c hc
    cases as with
    | nil =>
      simp only [List.map_cons, List.map_nil, List.getLast?_singleton,
        Option.mem_def, Option.some.injEq] at hc
      rw [← hc, hP]
      exact h a (by simp)
    | cons a2 as2 =>
      rw [List.map_cons, List.map_cons, List.getLast?_cons_cons] at hc
      apply ih
      · intro x hx
        apply h
        rw [List.getLast?_cons_cons]
        exact hx
      · rw [List.map_cons]
        exact hc

theorem all_pyStrip (p q : Char → Bool) (l : List Char)
    (h : ∀ c ∈ l, q c = false) : ∀ c ∈ pyStrip p l, q c = false := by
  intro c hc
  apply h
  unfold pyStrip pyRstrip pyLstrip at hc
  rw [List.mem_reverse] at hc
  have h1 := (List.dropWhile_sublist p).subset hc
  rw [List.mem_reverse] at h1
  exact (List.dropWhile_sublist p).subset h1

theorem all_wsSubAux (q : Char → Bool) (hq : q ' ' = false) :
    ∀ (l : List Char) (b : Bool), (∀ c ∈ l, q c = false) →
    ∀ c ∈ wsSubAux b l, q c = false := by
  intro l
  induction l with
  | nil => intro b _ c hc; simp [wsSubAux] at hc
  | cons a as ih =>
    intro b h c hc
    have htail : ∀ x ∈ as, q x = false := fun x hx => h x (by simp [hx])
    by_cases ha : pyWs a
    · cases b with
      | true =>
        simp only [wsSubAux, ha, if_true] at hc
        exact ih true htail c hc
      | false =>
        simp only [wsSubAux, ha, if_true, Bool.false_eq_true, if_false] at hc
        rcases List.mem_cons.mp hc with rfl | hmem
        · exact hq
        · exact ih true htail c hmem
    · simp only [wsSubAux, ha, Bool.false_eq_true, if_false] at hc
      rcases List.mem_cons.mp hc with rfl | hmem
      · exact h c (by simp)
      · exact ih false htail c hmem

theorem all_map_pred (f : Char → Char) (q : Char → Bool)
    (hq : ∀ c, q (f c) = q c) (l : List Char)
    (h : ∀ c ∈ l, q c = false) : ∀ c ∈ l.map f, q c = false := by
  intro c hc
  obtain ⟨d, hd, rfl⟩ := List.mem_map.mp hc
  rw [hq]
  exact h d hd

/-- Generic form of the two `_normalize_key` implementations, over the strip
set `p` of the respective service module. -/
def normKeyGen (p : Char → Bool) (s : String) : String :=
  if s = "" then ""
  else String.mk (pyLowerStr (wsSub (pyStrip p (pyStrip pyWs s.data))))

theorem clustering_normalize_key_eq (s : String) :
    ClusteringService.normalize_key s = normKeyGen clusterPunct s := rfl

theorem usecase_normalize_key_eq (s : String) :
    UsecaseDiagramService.normalize_key s = normKeyGen ucPunct s := rfl

theorem wsSub_eq_self_of_collapsed (l : List Char)
    (h : collapsedAux false l = true) : wsSub l = l :=
  wsSubAux_eq_self_of_collapsed l false h

theorem pyLowerStr_idem (l : List Char) :
    pyLowerStr (pyLowerStr l) = pyLowerStr l := by
  unfold pyLowerStr
  rw [List.map_map]
  exact List.map_congr_left (fun a _ => toLower_toLower a)

theorem normKeyGen_idem (p : Char → Bool) (hsp : p ' ' = false)
    (hlow : ∀ c, p (Char.toLower c) = p c) (s : String)
    (hs : ∀ c ∈ s.data, p c = false) :
    normKeyGen p (normKeyGen p s) = normKeyGen p s := by
  by_cases hse : s = ""
  · rw [hse]; rfl
  · have hA : ∀ c ∈ pyStrip pyWs s.data, p c = false := all_pyStrip pyWs p s.data hs
    have step1 : pyStrip p (pyStrip pyWs s.data) = pyStrip pyWs s.data :=
      pyStrip_eq_self_of_all p _ hA
    have ht : normKeyGen p s =
        String.mk (pyLowerStr (wsSub (pyStrip pyWs s.data))) := by
      unfold normKeyGen
      rw [if_neg hse, step1]
    rw [ht]
    -- the normalized string has no leading or trailing whitespace
    have hheadX : ∀ c ∈ (pyLowerStr (wsSub (pyStrip pyWs s.data))).head?,
        pyWs c = false :=
      head?_map_pred Char.toLower pyWs pyWs_toLower _
        (head?_wsSub _ (head?_pyStrip_ws s.data))
    have hlastX : ∀ c ∈ (pyLowerStr (wsSub (pyStrip pyWs s.data))).getLast?,
        pyWs c = false :=
      getLast?_map_pred Char.toLower pyWs pyWs_toLower _
        (getLast?_wsSubAux _ false (getLast?_pyStrip_ws s.data))
    -- the normalized string contains no strip-set characters
    have hXp : ∀ c ∈ pyLowerStr (wsSub (pyStrip pyWs s.data)), p c = false :=
      all_map_pred Char.toLower p hlow _ (all_wsSubAux p hsp _ false hA)
    -- the normalized string is already whitespace-collapsed
    have hcoll : collapsedAux false (pyLowerStr (wsSub (pyStrip pyWs s.data))) = true :=
      collapsedAux_map_toLower _ false (collapsedAux_wsSubAux _ false)
    by_cases hte : String.mk (pyLowerStr (wsSub (pyStrip pyWs s.data))) = ""
    · rw [hte]; rfl
    · unfold normKeyGen
      rw [if_neg hte]
      have hdata : (String.mk (pyLowerStr (wsSub (pyStrip pyWs s.data)))).data
          = pyLowerStr (wsSub (pyStrip pyWs s.data)) := rfl
      rw [hdata]
      rw [pyStrip_eq_self_of_edges pyWs _ hheadX hlastX]
      rw [pyStrip_eq_self_of_all p _ hXp]
      rw [wsSub_eq_self_of_collapsed _ hcoll]
      rw [pyLowerStr_idem]

end MS

/-- C4 counterexample: the use-case key normalization is not idempotent.
Stripping the edge quotes of `"  hello  "` (with literal double-quote
characters) exposes new leading/trailing whitespace, which the whitespace
strip of a second application then removes. -/
theorem C4_normalize_key_not_idempotent :
    UsecaseDiagramService.normalize_key
        (UsecaseDiagramService.normalize_key "\"  hello  \"") ≠
      UsecaseDiagramService.normalize_key "\"  hello  \"" := by
  decide

/-- C4 (amended): both `_normalize_key` functions are idempotent on strings
containing none of their edge-stripped quote/bracket characters, and both are
case- and whitespace-insensitive in the sense of the spec example:
`normalize("Sync  Data") = normalize("sync data")`.  (Unrestricted idempotence
fails; see the counterexample.) -/
theorem C4_normalize_key_amended :
    (∀ s : String, (∀ c ∈ s.data, MS.ucPunct c = false) →
      UsecaseDiagramService.normalize_key (UsecaseDiagramService.normalize_key s) =
        UsecaseDiagramService.normalize_key s) ∧
    (∀ s : String, (∀ c ∈ s.data, MS.clusterPunct c = false) →
      ClusteringService.normalize_key (ClusteringService.normalize_key s) =
        ClusteringService.normalize_key s) ∧
    UsecaseDiagramService.normalize_key "Sync  Data" =
      UsecaseDiagramService.normalize_key "sync data" ∧
    ClusteringService.normalize_key "Sync  Data" =
      ClusteringService.normalize_key "sync data" := by
  refine ⟨?_, ?_, by decide, by decide⟩
  · intro s hs
    simp only [MS.usecase_normalize_key_eq]
    exact MS.normKeyGen_idem MS.ucPunct (by decide) MS.ucPunct_toLower s hs
  · intro s hs
    simp only [MS.clustering_normalize_key_eq]
    exact MS.normKeyGen_idem MS.clusterPunct (by decide) MS.clusterPunct_toLower s hs

/-- C4 witness: the amended idempotence applied at the concrete string
`"Sync  Data"`, whose characters avoid both strip sets. -/
theorem C4_normalize_key_amended_witness :
    (∀ c ∈ "Sync  Data".data, MS.ucPunct c = false) ∧
    UsecaseDiagramService.normalize_key
        (UsecaseDiagramService.normalize_key "Sync  Data") =
      UsecaseDiagramService.normalize_key "Sync  Data" :=
  ⟨by decide, C4_normalize_key_amended.1 "Sync  Data" (by decide)⟩

namespace ClusteringService

/-! ## Embedding of `cluster_and_summarize_stories` (clustering_service.py)

The story dicts read from `user_stories_collection` become a `Story`
structure.  Three collaborators are parameters of the embedded function:
`embeddings` (the output of the external sentence-transformer on the
stories' `what` texts), `labels` (the cluster label of each story, the
output of sklearn's external `AgglomerativeClustering.fit`), and `sim`
(sklearn's external `cosine_similarity` of a member embedding against a
centroid). -/

/-- A user story record, with the fields the clustering service reads.
Optional fields model `dict.get` on keys that may be absent. -/
structure Story where
  id : String
  who : Option String
  what : Option String
  why : Option String
  full_sentence : Option String
  similarity_score : ℚ
  source : String
  source_id : String
  project_id : String
deriving DecidableEq, Inhabited

/-- Model of `story.pop("full_sentence", None)`: the record with the
`full_sentence` key removed and every other field untouched. -/
def popFullSentence (s : Story) : Story := { s with full_sentence := none }

/-- One output cluster dict as appended to `output_clusters`. -/
structure OutCluster where
  cluster_id : ℤ
  representative_story : Story
  stories : List Story
  size : ℕ
  sources : List String
deriving DecidableEq, Inhabited

/-- Componentwise sum of two embedding vectors (numpy addition of
equal-shape rows). -/
def vecAdd (u v : List ℚ) : List ℚ := List.zipWith (· + ·) u v

/-- Model of `np.mean(cluster_embeddings, axis=0)`: componentwise sum of the
rows divided by the number of rows. -/
def centroid (vs : List (List ℚ)) : List ℚ :=
  match vs with
  | [] => []
  | v :: rest => (rest.foldl vecAdd v).map (fun q => q / ((rest.length + 1 : ℕ) : ℚ))

/-- Model of `np.argmax`: the first index at which the list attains its
maximum value (`0` on the empty list, which the service never hits). -/
def argmaxIdx : List ℚ → ℕ
  | [] => 0
  | x :: xs => (x :: xs).indexOf (xs.foldl max x)

/-- Model of `sorted(list({item["source"] for item in cluster_items}))`:
the distinct source strings in ascending lexicographic order. -/
def sortedSources (items : List Story) : List String :=
  List.insertionSort (fun a b => a ≤ b) (items.map Story.source).dedup

/-- Distinct labels in order of first occurrence: the iteration order of the
`defaultdict` built by appending each story to its label's bucket. -/
def uniqKeysAux (seen : List ℤ) : List ℤ → List ℤ
  | [] => []
  | x :: xs => if x ∈ seen then uniqKeysAux seen xs else x :: uniqKeysAux (x :: seen) xs

/-- Distinct labels in first-occurrence order. -/
def uniqKeys (l : List ℤ) : List ℤ := uniqKeysAux [] l

/-- The bucket of a label: the stories paired with that label, in story
order (`clustered_stories[label]`). -/
def groupFor (pairs : List (Story × ℤ)) (lab : ℤ) : List Story :=
  (pairs.filter (fun p => p.2 == lab)).map Prod.fst

/-- `cluster_embeddings = embeddings[item_indices]` where
`item_indices = [stories.index(item) for item in cluster_items]`:
`list.index` finds the first equal record. -/
def clusterEmbeddings (stories : List Story) (embeddings : List (List ℚ))
    (items : List Story) : List (List ℚ) :=
  items.map (fun it => embeddings.getD (stories.indexOf it) [])

/-- `cosine_similarity(cluster_embeddings, centroid.reshape(1, -1))`
flattened: the similarity of each member embedding to the cluster centroid,
with the external similarity kernel as parameter `sim`. -/
def clusterSims (stories : List Story) (embeddings : List (List ℚ))
    (sim : List ℚ → List ℚ → ℚ) (items : List Story) : List ℚ :=
  (clusterEmbeddings stories embeddings items).map
    (fun v => sim v (centroid (clusterEmbeddings stories embeddings items)))

/-- Build one output cluster dict from a label and its bucket: pick the
representative by `np.argmax` of the centroid similarities, remove
`full_sentence` from every member (the representative aliases the record at
the argmax index, so it is popped too), and record size and sorted sources. -/
def buildCluster (stories : List Story) (embeddings : List (List ℚ))
    (sim : List ℚ → List ℚ → ℚ) (lab : ℤ) (items : List Story) : OutCluster :=
  let sims := clusterSims stories embeddings sim items
  { cluster_id := lab
    representative_story := popFullSentence (items.getD (argmaxIdx sims) default)
    stories := items.map popFullSentence
    size := items.length
    sources := sortedSources items }

/-- The descending-size comparison used by
`output_clusters.sort(key=lambda x: x["size"], reverse=True)`. -/
def clusterGE (a b : OutCluster) : Prop := b.size ≤ a.size

instance : DecidableRel clusterGE := fun a b => Nat.decLe b.size a.size

instance : IsTotal OutCluster clusterGE := ⟨fun a b => Nat.le_total b.size a.size⟩

instance : IsTrans OutCluster clusterGE := ⟨fun _ _ _ h1 h2 => Nat.le_trans h2 h1⟩

/-- Embedding of `cluster_and_summarize_stories` (the `clusters` list of the
returned dict; `project_id` is passed through unchanged).  Stories and the
per-story outputs of the external collaborators are the inputs; the body
mirrors the source: early return on empty input, bucket the stories by
label in first-occurrence order, skip empty buckets, build each cluster,
sort by descending size with a stable sort (Python's `list.sort` is stable,
modelled by the stable `insertionSort`), and return only the first 10. -/
def cluster_and_summarize_stories (stories : List Story)
    (embeddings : List (List ℚ)) (labels : List ℤ)
    (sim : List ℚ → List ℚ → ℚ) : List OutCluster :=
  if stories = [] then []
  else
    (List.insertionSort clusterGE
      ((((uniqKeys ((stories.zip labels).map Prod.snd)).map
          (fun lab => (lab, groupFor (stories.zip labels) lab))).filter
            (fun g => !g.2.isEmpty)).map
        (fun g => buildCluster stories embeddings sim g.1 g.2))).take 10

/-! ### Lemmas about the pieces -/

theorem mem_uniqKeysAux : ∀ (l seen : List ℤ) (a : ℤ),
    a ∈ uniqKeysAux seen l ↔ (a ∈ l ∧ a ∉ seen) := by
  intro l
  induction l with
  | nil => intro seen a; simp [uniqKeysAux]
  | cons x xs ih =>
    intro seen a
    by_cases hx : x ∈ seen
    · rw [uniqKeysAux, if_pos hx, ih]
      constructor
      · rintro ⟨h1, h2⟩
        exact ⟨List.mem_cons_of_mem x h1, h2⟩
      · rintro ⟨h1, h2⟩
        rcases List.mem_cons.mp h1 with rfl | h1
        · exact absurd hx h2
        · exact ⟨h1, h2⟩
    · rw [uniqKeysAux, if_neg hx]
      constructor
      · intro h
        rcases List.mem_cons.mp h with rfl | h
        · exact ⟨List.mem_cons_self a xs, hx⟩
        · obtain ⟨h1, h2⟩ := (ih (x :: seen) a).mp h
          refine ⟨List.mem_cons_of_mem x h1, fun hs => h2 (List.mem_cons_of_mem x hs)⟩
      · rintro ⟨h1, h2⟩
        rcases List.mem_cons.mp h1 with rfl | h1
        · exact List.mem_cons_self a _
        · by_cases hax : a = x
          · subst hax; exact List.mem_cons_self a _
          · exact List.mem_cons_of_mem x ((ih (x :: seen) a).mpr
              ⟨h1, fun hs => (List.mem_cons.mp hs).elim hax h2⟩)

theorem mem_uniqKeys (l : List ℤ) (a : ℤ) : a ∈ uniqKeys l ↔ a ∈ l := by
  rw [uniqKeys, mem_uniqKeysAux]
  simp

theorem nodup_uniqKeysAux : ∀ (l seen : List ℤ), (uniqKeysAux seen l).Nodup := by
  intro l
  induction l with
  | nil => intro seen; exact List.nodup_nil
  | cons x xs ih =>
    intro seen
    by_cases hx : x ∈ seen
    · rw [uniqKeysAux, if_pos hx]; exact ih seen
    · rw [uniqKeysAux, if_neg hx]
      refine List.Nodup.cons ?_ (ih (x :: seen))
      intro hmem
      exact ((mem_uniqKeysAux xs (x :: seen) x).mp hmem).2 (List.mem_cons_self x seen)

theorem nodup_uniqKeys (l : List ℤ) : (uniqKeys l).Nodup := nodup_uniqKeysAux l []

theorem foldl_max_le_self : ∀ (xs : List ℚ) (x : ℚ), x ≤ xs.foldl max x := by
  intro xs
  induction xs with
  | nil => intro x; exact le_refl x
  | cons y ys ih =>
    intro x
    calc x ≤ max x y := le_max_left x y
    _ ≤ (y :: ys).foldl max x := by rw [List.foldl_cons]; exact ih (max x y)

theorem le_foldl_max : ∀ (xs : List ℚ) (x y : ℚ), y ∈ xs → y ≤ xs.foldl max x := by
  intro xs
  induction xs with
  | nil => intro x y h; simp at h
  | cons z zs ih =>
    intro x y h
    rw [List.foldl_cons]
    rcases List.mem_cons.mp h with rfl | h
    · calc y ≤ max x y := le_max_right x y
      _ ≤ zs.foldl max (max x y) := foldl_max_le_self zs (max x y)
    · exact ih (max x z) y h

theorem foldl_max_mem : ∀ (xs : List ℚ) (x : ℚ),
    xs.foldl max x = x ∨ xs.foldl max x ∈ xs := by
  intro xs
  induction xs with
  | nil => intro x; exact Or.inl rfl
  | cons y ys ih =>
    intro x
    rw [List.foldl_cons]
    rcases ih (max x y) with h | h
    · rw [h]
      rcases max_choice x y with h2 | h2
      · exact Or.inl h2
      · exact Or.inr (by rw [h2]; exact List.mem_cons_self y ys)
    · exact Or.inr (List.mem_cons_of_mem y h)

theorem getD_lt_eq {α : Type} [Inhabited α] (l : List α) (n : ℕ) (d : α)
    (h : n < l.length) : l.getD n d = l.get ⟨n, h⟩ := by
  rw [List.getD_eq_getElem?_getD, List.getElem?_eq_getElem h]
  rfl

theorem getD_ne_of_lt_indexOf {α : Type} [DecidableEq α] (d : α) :
    ∀ (l : List α) (a : α) (j : ℕ), j < List.indexOf a l → l.getD j d ≠ a := by
  intro l
  induction l with
  | nil => intro a j h; simp [List.indexOf_nil] at h
  | cons b bs ih =>
    intro a j h
    by_cases hba : b = a
    · rw [List.indexOf_cons_eq bs hba] at h
      exact absurd h (Nat.not_lt_zero j)
    · rw [List.indexOf_cons_ne bs hba] at h
      cases j with
      | zero => simpa using hba
      | succ k =>
        have hk : k < List.indexOf a bs := Nat.lt_of_succ_lt_succ h
        simpa using ih a k hk

theorem argmaxIdx_lt_length (l : List ℚ) (hne : l ≠ []) :
    argmaxIdx l < l.length := by
  cases l with
  | nil => exact absurd rfl hne
  | cons x xs =>
    rw [argmaxIdx, List.indexOf_lt_length]
    rcases foldl_max_mem xs x with h | h
    · rw [h]; exact List.mem_cons_self x xs
    · exact List.mem_cons_of_mem x h

theorem getD_argmaxIdx (x : ℚ) (xs : List ℚ) :
    (x :: xs).getD (argmaxIdx (x :: xs)) 0 = xs.foldl max x := by
  have hmem : xs.foldl max x ∈ x :: xs := by
    rcases foldl_max_mem xs x with h | h
    · rw [h]; exact List.mem_cons_self x xs
    · exact List.mem_cons_of_mem x h
  have hlt : List.indexOf (xs.foldl max x) (x :: xs) < (x :: xs).length :=
    List.indexOf_lt_length.mpr hmem
  rw [argmaxIdx, getD_lt_eq _ _ _ hlt]
  exact List.indexOf_get hlt

theorem le_getD_argmaxIdx (l : List ℚ) (hne : l ≠ []) (j : ℕ) (hj : j < l.length) :
    l.getD j 0 ≤ l.getD (argmaxIdx l) 0 := by
  cases l with
  | nil => exact absurd rfl hne
  | cons x xs =>
    rw [getD_argmaxIdx]
    have hmem : (x :: xs).getD j 0 ∈ x :: xs := by
      rw [getD_lt_eq _ _ _ hj]
      exact List.get_mem _ j hj
    rcases List.mem_cons.mp hmem with h | h
    · rw [h]; exact foldl_max_le_self xs x
    · exact le_foldl_max xs x _ h

theorem lt_getD_argmaxIdx (l : List ℚ) (hne : l ≠ []) (j : ℕ)
    (hj : j < argmaxIdx l) : l.getD j 0 < l.getD (argmaxIdx l) 0 := by
  have hjlen : j < l.length := Nat.lt_trans hj (argmaxIdx_lt_length l hne)
  refine lt_of_le_of_ne (le_getD_argmaxIdx l hne j hjlen) ?_
  cases l with
  | nil => exact absurd rfl hne
  | cons x xs =>
    rw [getD_argmaxIdx]
    have hj2 : j < List.indexOf (xs.foldl max x) (x :: xs) := hj
    exact getD_ne_of_lt_indexOf 0 (x :: xs) (xs.foldl max x) j hj2

theorem flatten_groupFor_perm : ∀ (ks : List ℤ) (pairs : List (Story × ℤ)),
    ks.Nodup → (∀ p ∈ pairs, p.2 ∈ ks) →
    List.Perm (ks.map (fun lab => groupFor pairs lab)).flatten (pairs.map Prod.fst) := by
  intro ks
  induction ks with
  | nil =>
    intro pairs _ h2
    cases pairs with
    | nil => simp
    | cons p ps => exact absurd (h2 p (List.mem_cons_self p ps)) (List.not_mem_nil p.2)
  | cons k ks ih =>
    intro pairs hnd h2
    have hnd2 := List.nodup_cons.mp hnd
    rw [List.map_cons, List.flatten_cons]
    have htail : ∀ lab ∈ ks,
        groupFor pairs lab = groupFor (pairs.filter (fun p => !(p.2 == k))) lab := by
      intro lab hlab
      have hlabk : lab ≠ k := fun e => hnd2.1 (e ▸ hlab)
      unfold groupFor
      rw [List.filter_filter]
      congr 1
      apply (List.filter_congr ?_).symm
      intro p _
      by_cases hp : p.2 = lab
      · have : (p.2 == k) = false := by
          simp only [beq_eq_false_iff_ne, ne_eq, hp]
          exact hlabk
        simp [hp, this]
        exact hlabk
      · simp [hp]
    rw [List.map_congr_left htail]
    have hrest : ∀ p ∈ pairs.filter (fun p => !(p.2 == k)), p.2 ∈ ks := by
      intro p hp
      obtain ⟨hp1, hp2⟩ := List.mem_filter.mp hp
      have hk : p.2 ≠ k := by
        simpa using hp2
      rcases List.mem_cons.mp (h2 p hp1) with h | h
      · exact absurd h hk
      · exact h
    have ihapp := ih (pairs.filter (fun p => !(p.2 == k))) hnd2.2 hrest
    have hperm2 : List.Perm ((pairs.filter (fun p => p.2 == k)).map Prod.fst ++
        (pairs.filter (fun p => !(p.2 == k))).map Prod.fst) (pairs.map Prod.fst) := by
      rw [← List.map_append]
      exact (List.filter_append_perm (fun p => p.2 == k) pairs).map Prod.fst
    exact (List.Perm.append_left (groupFor pairs k) ihapp).trans hperm2

theorem groupFor_ne_nil (pairs : List (Story × ℤ)) (lab : ℤ)
    (h : lab ∈ pairs.map Prod.snd) : groupFor pairs lab ≠ [] := by
  obtain ⟨p, hp, hpe⟩ := List.mem_map.mp h
  have hmem : p ∈ pairs.filter (fun q => q.2 == lab) :=
    List.mem_filter.mpr ⟨hp, by simp [hpe]⟩
  unfold groupFor
  intro he
  rw [List.map_eq_nil_iff] at he
  rw [he] at hmem
  exact List.not_mem_nil p hmem

theorem mem_result (stories : List Story) (embeddings : List (List ℚ))
    (labels : List ℤ) (sim : List ℚ → List ℚ → ℚ) (c : OutCluster)
    (hc : c ∈ cluster_and_summarize_stories stories embeddings labels sim) :
    ∃ lab items, items ≠ [] ∧ items = groupFor (stories.zip labels) lab ∧
      lab ∈ uniqKeys ((stories.zip labels).map Prod.snd) ∧
      c = buildCluster stories embeddings sim lab items := by
  by_cases hs : stories = []
  · rw [cluster_and_summarize_stories, if_pos hs] at hc
    simp at hc
  · rw [cluster_and_summarize_stories, if_neg hs] at hc
    have hc2 := (List.take_sublist 10 _).subset hc
    rw [List.mem_insertionSort] at hc2
    obtain ⟨g, hg, rfl⟩ := List.mem_map.mp hc2
    obtain ⟨hg1, hg2⟩ := List.mem_filter.mp hg
    obtain ⟨lab, hlab, rfl⟩ := List.mem_map.mp hg1
    refine ⟨lab, groupFor (stories.zip labels) lab, ?_, rfl, hlab, rfl⟩
    intro he
    rw [show (lab, groupFor (stories.zip labels) lab).2 =
      groupFor (stories.zip labels) lab from rfl, he] at hg2
    simp at hg2

theorem clusterSims_length (stories : List Story) (embeddings : List (List ℚ))
    (sim : List ℚ → List ℚ → ℚ) (items : List Story) :
    (clusterSims stories embeddings sim items).length = items.length := by
  rw [clusterSims, List.length_map, clusterEmbeddings, List.length_map]

theorem clusterSims_ne_nil (stories : List Story) (embeddings : List (List ℚ))
    (sim : List ℚ → List ℚ → ℚ) (items : List Story) (hne : items ≠ []) :
    clusterSims stories embeddings sim items ≠ [] := by
  intro h
  apply hne
  have := congrArg List.length h
  rw [clusterSims_length] at this
  exact List.length_eq_zero.mp this

theorem buildCluster_rep_mem (stories : List Story) (embeddings : List (List ℚ))
    (sim : List ℚ → List ℚ → ℚ) (lab : ℤ) (items : List Story) (hne : items ≠ []) :
    (buildCluster stories embeddings sim lab items).representative_story ∈
      (buildCluster stories embeddings sim lab items).stories := by
  have hlt : argmaxIdx (clusterSims stories embeddings sim items) < items.length := by
    rw [← clusterSims_length stories embeddings sim items]
    exact argmaxIdx_lt_length _ (clusterSims_ne_nil stories embeddings sim items hne)
  show popFullSentence
      (items.getD (argmaxIdx (clusterSims stories embeddings sim items)) default) ∈
    items.map popFullSentence
  apply List.mem_map_of_mem
  rw [getD_lt_eq items _ default hlt]
  exact List.get_mem items _ hlt

/-- A story record with a given id and fixed remaining fields, used for
concrete evaluations. -/
def exStory (n : String) : Story :=
  { id := n, who := none, what := none, why := none, full_sentence := none,
    similarity_score := 0, source := "review", source_id := "s", project_id := "p" }

/-- Eleven distinct stories. -/
def exStories11 : List Story :=
  ["a", "b", "c", "d", "e", "f", "g", "h", "i", "j", "k"].map exStory

/-- Eleven distinct cluster labels (eleven mutually distant embeddings make
the agglomerative clustering return a singleton cluster per story). -/
def exLabels11 : List ℤ := [0, 1, 2, 3, 4, 5, 6, 7, 8, 9, 10]

/-- Trivial embeddings for the concrete runs. -/
def exEmb : List (List ℚ) := List.replicate 11 []

/-- Trivial similarity kernel for the concrete runs. -/
def exSim : List ℚ → List ℚ → ℚ := fun _ _ => 0

/-- Two stories in a single cluster. -/
def exStories2 : List Story := [exStory "a", exStory "b"]

/-- One shared label for the two stories. -/
def exLabels2 : List ℤ := [0, 0]

/-- The clustering output on the two-story input. -/
def exResult2 : List OutCluster :=
  cluster_and_summarize_stories exStories2 exEmb exLabels2 exSim

/-- The single cluster of the two-story run. -/
def exClusterA : OutCluster := exResult2.getD 0 default

theorem result_eq_of_le10 (stories : List Story) (embeddings : List (List ℚ))
    (labels : List ℤ) (sim : List ℚ → List ℚ → ℚ) (hs : stories ≠ [])
    (hcount : (uniqKeys ((stories.zip labels).map Prod.snd)).length ≤ 10) :
    cluster_and_summarize_stories stories embeddings labels sim =
      List.insertionSort clusterGE
        ((uniqKeys ((stories.zip labels).map Prod.snd)).map
          (fun lab => buildCluster stories embeddings sim lab
            (groupFor (stories.zip labels) lab))) := by
  rw [cluster_and_summarize_stories, if_neg hs]
  have hall : ∀ g ∈ (uniqKeys ((stories.zip labels).map Prod.snd)).map
      (fun lab => (lab, groupFor (stories.zip labels) lab)), (!g.2.isEmpty) = true := by
    intro g hg
    obtain ⟨lab, hlab, rfl⟩ := List.mem_map.mp hg
    have hne : groupFor (stories.zip labels) lab ≠ [] :=
      groupFor_ne_nil _ _ ((mem_uniqKeys _ _).mp hlab)
    simpa using hne
  rw [List.filter_eq_self.mpr hall, List.map_map]
  apply List.take_of_length_le
  rw [(List.perm_insertionSort _ _).length_eq, List.length_map]
  exact hcount

/-- C1 (amended): `cluster_and_summarize_stories` returns its clusters sorted
by descending `size`, but the truncation to a bounded result is performed
inside the function itself: the returned list never has more than 10
clusters (the `[:10]` slice of the source). -/
theorem C1_sorted_truncated_amended (stories : List Story)
    (embeddings : List (List ℚ)) (labels : List ℤ)
    (sim : List ℚ → List ℚ → ℚ) :
    List.Sorted clusterGE (cluster_and_summarize_stories stories embeddings labels sim) ∧
    (cluster_and_summarize_stories stories embeddings labels sim).length ≤ 10 := by
  constructor
  · by_cases hs : stories = []
    · rw [cluster_and_summarize_stories, if_pos hs]
      exact List.sorted_nil
    · rw [cluster_and_summarize_stories, if_neg hs]
      exact List.Pairwise.sublist (List.take_sublist 10 _)
        (List.sorted_insertionSort clusterGE _)
  · by_cases hs : stories = []
    · rw [cluster_and_summarize_stories, if_pos hs]
      simp
    · rw [cluster_and_summarize_stories, if_neg hs]
      rw [List.length_take]
      exact min_le_left _ _

/-- C1 counterexample: on eleven stories with eleven distinct cluster labels
the function forms eleven clusters but returns only ten — the truncation to
the top 10 happens inside the clustering function, not at a caller. -/
theorem C1_truncation_counterexample :
    (cluster_and_summarize_stories exStories11 exEmb exLabels11 exSim).length = 10 ∧
    (uniqKeys ((exStories11.zip exLabels11).map Prod.snd)).length = 11 := by
  decide

/-- C2 (amended): whenever at most 10 clusters form (and one label is
assigned per story), the clusters returned by `cluster_and_summarize_stories`
partition the input record set: the concatenation of all clusters' members
is a permutation of the input records (each with its `full_sentence` field
removed, see C10), and each cluster's `size` equals its number of members.
When more than 10 clusters form, the `[:10]` truncation drops records. -/
theorem C2_partition_amended (stories : List Story) (embeddings : List (List ℚ))
    (labels : List ℤ) (sim : List ℚ → List ℚ → ℚ)
    (hlen : labels.length = stories.length)
    (hcount : (uniqKeys ((stories.zip labels).map Prod.snd)).length ≤ 10) :
    List.Perm ((cluster_and_summarize_stories stories embeddings labels sim).map
      OutCluster.stories).flatten (stories.map popFullSentence) ∧
    ∀ c ∈ cluster_and_summarize_stories stories embeddings labels sim,
      c.size = c.stories.length := by
  constructor
  · by_cases hs : stories = []
    · subst hs
      rw [cluster_and_summarize_stories, if_pos rfl]
      simp
    · rw [result_eq_of_le10 stories embeddings labels sim hs hcount]
      have h1 : List.Perm
          ((List.insertionSort clusterGE
            ((uniqKeys ((stories.zip labels).map Prod.snd)).map
              (fun lab => buildCluster stories embeddings sim lab
                (groupFor (stories.zip labels) lab)))).map OutCluster.stories).flatten
          (((uniqKeys ((stories.zip labels).map Prod.snd)).map
              (fun lab => buildCluster stories embeddings sim lab
                (groupFor (stories.zip labels) lab))).map OutCluster.stories).flatten :=
        ((List.perm_insertionSort clusterGE _).map OutCluster.stories).flatten
      refine h1.trans ?_
      have h2 : ((uniqKeys ((stories.zip labels).map Prod.snd)).map
          (fun lab => buildCluster stories embeddings sim lab
            (groupFor (stories.zip labels) lab))).map OutCluster.stories =
          List.map (List.map popFullSentence)
            ((uniqKeys ((stories.zip labels).map Prod.snd)).map
              (fun lab => groupFor (stories.zip labels) lab)) := by
        rw [List.map_map, List.map_map]
        exact List.map_congr_left (fun lab _ => rfl)
      rw [h2, ← List.map_flatten]
      have h3 : List.Perm
          ((uniqKeys ((stories.zip labels).map Prod.snd)).map
            (fun lab => groupFor (stories.zip labels) lab)).flatten
          ((stories.zip labels).map Prod.fst) :=
        flatten_groupFor_perm _ _ (nodup_uniqKeys _)
          (fun p hp => (mem_uniqKeys _ _).mpr (List.mem_map_of_mem Prod.snd hp))
      have h4 := h3.map popFullSentence
      rw [List.map_fst_zip stories labels hlen.ge] at h4
      exact h4
  · intro c hc
    obtain ⟨lab, items, hne, hitems, hlab, rfl⟩ :=
      mem_result stories embeddings labels sim c hc
    show items.length = (items.map popFullSentence).length
    rw [List.length_map]

/-- C2 counterexample: with eleven singleton clusters the returned clusters'
members do not cover the input record set — one record is dropped by the
internal top-10 truncation. -/
theorem C2_partition_counterexample :
    ¬ List.Perm ((cluster_and_summarize_stories exStories11 exEmb exLabels11 exSim).map
      OutCluster.stories).flatten (exStories11.map popFullSentence) :=
  fun h => absurd h.length_eq (by decide)

/-- C2 witness: on two stories sharing one cluster the amended partition
property holds concretely. -/
theorem C2_partition_amended_witness :
    exLabels2.length = exStories2.length ∧
    (uniqKeys ((exStories2.zip exLabels2).map Prod.snd)).length ≤ 10 ∧
    List.Perm ((cluster_and_summarize_stories exStories2 exEmb exLabels2 exSim).map
      OutCluster.stories).flatten (exStories2.map popFullSentence) :=
  ⟨by decide, by decide,
    (C2_partition_amended exStories2 exEmb exLabels2 exSim (by decide) (by decide)).1⟩

/-- C6: every returned cluster is built from one label bucket; its
representative is a member of the cluster (the record at the `np.argmax`
index), no member has a strictly higher similarity (the external cosine
kernel `sim`) to the centroid — the arithmetic mean of the member
embeddings — and ties go to the first member index. -/
theorem C6_representative_valid (stories : List Story) (embeddings : List (List ℚ))
    (labels : List ℤ) (sim : List ℚ → List ℚ → ℚ) :
    ∀ c ∈ cluster_and_summarize_stories stories embeddings labels sim,
      ∃ lab items, items ≠ [] ∧ items = groupFor (stories.zip labels) lab ∧
        c = buildCluster stories embeddings sim lab items ∧
        c.representative_story = popFullSentence
          (items.getD (argmaxIdx (clusterSims stories embeddings sim items)) default) ∧
        c.representative_story ∈ c.stories ∧
        (∀ j < (clusterSims stories embeddings sim items).length,
          (clusterSims stories embeddings sim items).getD j 0 ≤
            (clusterSims stories embeddings sim items).getD
              (argmaxIdx (clusterSims stories embeddings sim items)) 0) ∧
        (∀ j < argmaxIdx (clusterSims stories embeddings sim items),
          (clusterSims stories embeddings sim items).getD j 0 <
            (clusterSims stories embeddings sim items).getD
              (argmaxIdx (clusterSims stories embeddings sim items)) 0) := by
  intro c hc
  obtain ⟨lab, items, hne, hitems, hlab, rfl⟩ :=
    mem_result stories embeddings labels sim c hc
  have hsimsne := clusterSims_ne_nil stories embeddings sim items hne
  refine ⟨lab, items, hne, hitems, rfl, rfl,
    buildCluster_rep_mem stories embeddings sim lab items hne, ?_, ?_⟩
  · intro j hj
    exact le_getD_argmaxIdx _ hsimsne j hj
  · intro j hj
    exact lt_getD_argmaxIdx _ hsimsne j hj

/-- C6 witness: the representative-validity conclusion evaluated on the
concrete two-story single-cluster run. -/
theorem C6_representative_valid_witness :
    exClusterA ∈ cluster_and_summarize_stories exStories2 exEmb exLabels2 exSim ∧
    (∃ lab items, items ≠ [] ∧ items = groupFor (exStories2.zip exLabels2) lab ∧
      exClusterA = buildCluster exStories2 exEmb exSim lab items ∧
      exClusterA.representative_story = popFullSentence
        (items.getD (argmaxIdx (clusterSims exStories2 exEmb exSim items)) default) ∧
      exClusterA.representative_story ∈ exClusterA.stories ∧
      (∀ j < (clusterSims exStories2 exEmb exSim items).length,
        (clusterSims exStories2 exEmb exSim items).getD j 0 ≤
          (clusterSims exStories2 exEmb exSim items).getD
            (argmaxIdx (clusterSims exStories2 exEmb exSim items)) 0) ∧
      (∀ j < argmaxIdx (clusterSims exStories2 exEmb exSim items),
        (clusterSims exStories2 exEmb exSim items).getD j 0 <
          (clusterSims exStories2 exEmb exSim items).getD
            (argmaxIdx (clusterSims exStories2 exEmb exSim items)) 0)) :=
  ⟨by decide,
    C6_representative_valid exStories2 exEmb exLabels2 exSim exClusterA (by decide)⟩

/-- C10: in every returned cluster, every member record — including the
representative, which aliases the member at the argmax index — has its
`full_sentence` field removed, and every other field of each member equals
the corresponding field of an input record. -/
theorem C10_full_sentence_removed (stories : List Story)
    (embeddings : List (List ℚ)) (labels : List ℤ)
    (sim : List ℚ → List ℚ → ℚ) :
    ∀ c ∈ cluster_and_summarize_stories stories embeddings labels sim,
      (∀ m ∈ c.stories, m.full_sentence = none ∧
        ∃ orig ∈ stories, m.id = orig.id ∧ m.who = orig.who ∧ m.what = orig.what ∧
          m.why = orig.why ∧ m.similarity_score = orig.similarity_score ∧
          m.source = orig.source ∧ m.source_id = orig.source_id ∧
          m.project_id = orig.project_id) ∧
      c.representative_story ∈ c.stories ∧
      c.representative_story.full_sentence = none := by
  intro c hc
  obtain ⟨lab, items, hne, hitems, hlab, rfl⟩ :=
    mem_result stories embeddings labels sim c hc
  refine ⟨?_, buildCluster_rep_mem stories embeddings sim lab items hne, rfl⟩
  intro m hm
  obtain ⟨it, hit, rfl⟩ := List.mem_map.mp hm
  refine ⟨rfl, ?_⟩
  rw [hitems] at hit
  obtain ⟨p, hp, rfl⟩ := List.mem_map.mp hit
  have hmem : p.1 ∈ stories := (List.of_mem_zip (List.mem_filter.mp hp).1).1
  exact ⟨p.1, hmem, rfl, rfl, rfl, rfl, rfl, rfl, rfl, rfl⟩

/-- C10 witness: the frame property evaluated on the concrete two-story run. -/
theorem C10_full_sentence_removed_witness :
    exClusterA ∈ cluster_and_summarize_stories exStories2 exEmb exLabels2 exSim ∧
    ((∀ m ∈ exClusterA.stories, m.full_sentence = none ∧
      ∃ orig ∈ exStories2, m.id = orig.id ∧ m.who = orig.who ∧ m.what = orig.what ∧
        m.why = orig.why ∧ m.similarity_score = orig.similarity_score ∧
        m.source = orig.source ∧ m.source_id = orig.source_id ∧
        m.project_id = orig.project_id) ∧
    exClusterA.representative_story ∈ exClusterA.stories ∧
    exClusterA.representative_story.full_sentence = none) :=
  ⟨by decide,
    C10_full_sentence_removed exStories2 exEmb exLabels2 exSim exClusterA (by decide)⟩

end ClusteringService

namespace MS

/-- Python `str.lower` on a whole string (ASCII). -/
def pyLowerString (s : String) : String := String.mk (pyLowerStr s.data)

end MS

namespace AspectIdentifier

/-! ## Embedding of `identify_who_aspect` (aspect_identifier.py)

A spaCy token is reduced to the four attributes the function reads; the
WordNet lookup `wn.synsets(token.text.lower())` is the external parameter
`synsets`, returning the lexical-category names of the word's synsets.
`aspect_of_who` is a Python `set` of strings built with `add`; its contents
are the distinct qualifying texts, and `list(aspect_of_who)[0]` returns an
arbitrary element, modelled by the enumeration parameter `setElems` (any
permutation of the distinct elements is a possible CPython enumeration). -/

/-- A parsed token: surface text, dependency label, part of speech, and
named-entity type. -/
structure Token where
  text : String
  dep : String
  pos : String
  entType : String
deriving DecidableEq, Inhabited

/-- `token.dep_ in {"nsubj", "nsubjpass", "dobj", "pobj"}`. -/
def isTargetDep (t : Token) : Bool :=
  t.dep == "nsubj" || t.dep == "nsubjpass" || t.dep == "dobj" || t.dep == "pobj"

/-- One token qualifies as an agent: person/org/nationality entity, pronoun,
or some synset of its lowercased text has a person/group/artifact lexname. -/
def qualifies (synsets : String → List String) (t : Token) : Bool :=
  (t.entType == "PERSON" || t.entType == "ORG" || t.entType == "NORP") ||
  t.pos == "PRON" ||
  (synsets (MS.pyLowerString t.text)).any
    (fun lex => lex == "noun.person" || lex == "noun.group" || lex == "noun.artifact")

/-- The distinct elements of a list in first-addition order: the
mathematical contents of the Python set built by repeated `add`. -/
def distinctTexts (seen : List String) : List String → List String
  | [] => []
  | x :: xs => if x ∈ seen then distinctTexts seen xs else x :: distinctTexts (x :: seen) xs

/-- Embedding of `identify_who_aspect`: collect the target-dependency tokens
in scan order, keep the qualifying ones, pool their texts into a set, and
return `list(aspect_of_who)[0]` — an arbitrary element under the
enumeration `setElems` — or `"user"` when the set is empty. -/
def identify_who_aspect (synsets : String → List String)
    (setElems : List String → List String) (sent : List Token) : String :=
  let subject_object_tokens := sent.filter isTargetDep
  let aspect_of_who :=
    distinctTexts [] ((subject_object_tokens.filter (qualifies synsets)).map Token.text)
  if aspect_of_who ≠ [] then (setElems aspect_of_who).headD "user" else "user"

/-- The behavior the claim (and the source comment `Return first match or
default to "user"`) describes: the first qualifying token in scan order. -/
def firstQualifyingWho (synsets : String → List String) (sent : List Token) : String :=
  match (sent.filter isTargetDep).filter (qualifies synsets) with
  | [] => "user"
  | t :: _ => t.text

/-- An external lexicon returning no synsets. -/
def exSynsets : String → List String := fun _ => []

/-- Tokens of a sentence with two qualifying agents, subject first. -/
def exTokAlice : Token := { text := "Alice", dep := "nsubj", pos := "PROPN", entType := "PERSON" }

/-- The sentence's verb, with no target dependency. -/
def exTokLikes : Token := { text := "likes", dep := "ROOT", pos := "VERB", entType := "" }

/-- A second qualifying agent in object position. -/
def exTokBob : Token := { text := "Bob", dep := "dobj", pos := "PROPN", entType := "PERSON" }

/-- The sentence "Alice likes Bob". -/
def exSentAB : List Token := [exTokAlice, exTokLikes, exTokBob]

end AspectIdentifier

/-- C3: `identify_who_aspect` does not return the first qualifying token in
scan order: it returns `list(aspect_of_who)[0]` for a Python `set`, whose
enumeration order is arbitrary.  On "Alice likes Bob" the identity
enumeration yields "Alice" but the reversed enumeration — equally a valid
set enumeration, being a permutation of the elements — yields "Bob",
contradicting the claimed (and comment-documented) first-match behavior. -/
theorem C3_who_set_order_dependent :
    AspectIdentifier.identify_who_aspect AspectIdentifier.exSynsets id
        AspectIdentifier.exSentAB = "Alice" ∧
    AspectIdentifier.identify_who_aspect AspectIdentifier.exSynsets List.reverse
        AspectIdentifier.exSentAB = "Bob" ∧
    AspectIdentifier.firstQualifyingWho AspectIdentifier.exSynsets
        AspectIdentifier.exSentAB = "Alice" ∧
    ("Bob" : String) ≠ "Alice" ∧
    ∀ l : List String, List.Perm (List.reverse l) l :=
  ⟨by decide, by decide, by decide, by decide, fun l => List.reverse_perm l⟩

namespace UserStoryExtractor

/-! ## Embedding of `extract_user_stories` (user_story_extractor.py)

The per-source candidate extractors (spaCy matcher pipelines) are parameters
`extractReview`/`extractNews`/`extractTweet`; the software-context filter's
similarity computation (spaCy embedding similarity maximized over the
keyword dictionary) is the parameter `maxSim` applied to a candidate's
`what` text; the uuid4 supply is the parameter `ids`, indexed by position in
the surviving candidate list.  The `content` argument may be a non-string at
runtime, modelled by `PyVal`. -/

/-- A runtime Python value passed as `content`: a string or anything else. -/
inductive PyVal where
  | str (s : String)
  | nonStr
deriving DecidableEq

/-- A candidate record produced by a per-source extractor. -/
structure Cand where
  who : String
  what : String
  why : Option String
  full_sentence : String
deriving DecidableEq, Inhabited

/-- The returned `UserStoryModel`. -/
structure UserStoryModel where
  id : String
  who : String
  what : String
  why : Option String
  full_sentence : String
  similarity_score : ℚ
  source : String
  source_id : String
  project_id : String
deriving DecidableEq, Inhabited

/-- The per-source dispatch of step 1 (`if source == "review": ... elif ...`). -/
def candidatesFor (extractReview extractNews extractTweet : String → List Cand)
    (source : String) (s : String) : List Cand :=
  if source = "review" then extractReview s
  else if source = "news" then extractNews s
  else if source = "tweet" then extractTweet s
  else []

/-- Step 2, `_filter_by_software_context`: keep candidates whose maximum
keyword similarity reaches the threshold, attaching that similarity. -/
def filteredCands (maxSim : String → ℚ) (min_similarity : ℚ)
    (cands : List Cand) : List (Cand × ℚ) :=
  cands.filterMap (fun c =>
    if min_similarity ≤ maxSim c.what then some (c, maxSim c.what) else none)

/-- The dedup key `(who.lower(), what.lower(), (why or "").lower(),
full_sentence.lower())`. -/
def candKey (c : Cand) : String × String × String × String :=
  (MS.pyLowerString c.who, MS.pyLowerString c.what,
    MS.pyLowerString (c.why.getD ""), MS.pyLowerString c.full_sentence)

/-- Step 3: stable de-duplication by `candKey`, keeping first occurrences
(the `seen` set is the accumulator). -/
def dedupeByKey (seen : List (String × String × String × String)) :
    List (Cand × ℚ) → List (Cand × ℚ)
  | [] => []
  | c :: cs =>
    if candKey c.1 ∈ seen then dedupeByKey seen cs
    else c :: dedupeByKey (candKey c.1 :: seen) cs

/-- Build one `UserStoryModel` from a surviving candidate and its fresh id. -/
def mkModel (ids : ℕ → String) (source source_id project_id : String)
    (i : ℕ) (c : Cand × ℚ) : UserStoryModel :=
  { id := ids i, who := c.1.who, what := c.1.what, why := c.1.why,
    full_sentence := c.1.full_sentence, similarity_score := c.2,
    source := source, source_id := source_id, project_id := project_id }

/-- The loop over surviving candidates, each receiving a fresh uuid. -/
def buildModels (ids : ℕ → String) (source source_id project_id : String)
    (kept : List (Cand × ℚ)) : List UserStoryModel :=
  kept.enum.map (fun p => mkModel ids source source_id project_id p.1 p.2)

/-- Steps 2-4 applied to the extracted candidates. -/
def processCandidates (maxSim : String → ℚ) (ids : ℕ → String)
    (source source_id project_id : String) (min_similarity : ℚ)
    (dedupe : Bool) (cands : List Cand) : List UserStoryModel :=
  let filtered := filteredCands maxSim min_similarity cands
  let kept := if dedupe then dedupeByKey [] filtered else filtered
  buildModels ids source source_id project_id kept

/-- Embedding of `extract_user_stories`.  Empty or non-string content
returns `[]` before the source dispatch; an unrecognized source raises
`ValueError` (modelled as `Except.error` with the source's message). -/
def extract_user_stories
    (extractReview extractNews extractTweet : String → List Cand)
    (maxSim : String → ℚ) (ids : ℕ → String)
    (source source_id : String) (content : PyVal) (project_id : String)
    (min_similarity : ℚ) (dedupe : Bool) :
    Except String (List UserStoryModel) :=
  match content with
  | .nonStr => .ok []
  | .str s =>
    if s = "" then .ok []
    else if source = "review" then
      .ok (processCandidates maxSim ids source source_id project_id
        min_similarity dedupe (extractReview s))
    else if source = "news" then
      .ok (processCandidates maxSim ids source source_id project_id
        min_similarity dedupe (extractNews s))
    else if source = "tweet" then
      .ok (processCandidates maxSim ids source source_id project_id
        min_similarity dedupe (extractTweet s))
    else .error "source must be one of: 'review' | 'news' | 'tweet'"

/-- The dedup key of a returned model. -/
def modelKey (m : UserStoryModel) : String × String × String × String :=
  (MS.pyLowerString m.who, MS.pyLowerString m.what,
    MS.pyLowerString (m.why.getD ""), MS.pyLowerString m.full_sentence)

/-- Trivial extractor returning no candidates. -/
def exNoCands : String → List Cand := fun _ => []

/-- Similarity kernel scoring everything 1. -/
def exMaxSim1 : String → ℚ := fun _ => 1

/-- A deterministic id supply. -/
def exIds : ℕ → String := fun i => "id" ++ toString i

end UserStoryExtractor

/-- C5 counterexample: with an unrecognized source but empty string content,
`extract_user_stories` returns `[]` instead of failing — the empty-content
check runs before the source-type check, so the claim's "fails whenever the
source is invalid" is false. -/
theorem C5_invalid_source_empty_content_returns_nil :
    UserStoryExtractor.extract_user_stories UserStoryExtractor.exNoCands
        UserStoryExtractor.exNoCands UserStoryExtractor.exNoCands
        UserStoryExtractor.exMaxSim1 UserStoryExtractor.exIds
        "bogus" "sid" (UserStoryExtractor.PyVal.str "") "pid" (7/10) true =
      Except.ok [] ∧
    ("bogus" ≠ "review" ∧ "bogus" ≠ "news" ∧ "bogus" ≠ "tweet") := by
  constructor
  · rfl
  · refine ⟨?_, ?_, ?_⟩ <;> decide

/-- C5 (amended): `extract_user_stories` returns `[]` (not an error) for
empty or non-string content regardless of the source, and fails with the
distinct invalid-source `ValueError` whenever the content is a non-empty
string and the source is not one of `review`, `news`, `tweet`. -/
theorem C5_invalid_input_amended
    (extractReview extractNews extractTweet : String → List UserStoryExtractor.Cand)
    (maxSim : String → ℚ) (ids : ℕ → String)
    (source source_id project_id : String) (min_similarity : ℚ) (dedupe : Bool) :
    (∀ content : UserStoryExtractor.PyVal,
      (content = UserStoryExtractor.PyVal.nonStr ∨ content = UserStoryExtractor.PyVal.str "") →
      UserStoryExtractor.extract_user_stories extractReview extractNews extractTweet
        maxSim ids source source_id content project_id min_similarity dedupe =
        Except.ok []) ∧
    (∀ s : String, s ≠ "" → source ≠ "review" → source ≠ "news" → source ≠ "tweet" →
      UserStoryExtractor.extract_user_stories extractReview extractNews extractTweet
        maxSim ids source source_id (UserStoryExtractor.PyVal.str s) project_id
        min_similarity dedupe =
        Except.error "source must be one of: 'review' | 'news' | 'tweet'") := by
  constructor
  · rintro content (rfl | rfl)
    · rfl
    · rfl
  · intro s hs h1 h2 h3
    show (if s = "" then Except.ok []
      else if source = "review" then _
      else if source = "news" then _
      else if source = "tweet" then _
      else Except.error "source must be one of: 'review' | 'news' | 'tweet'") = _
    rw [if_neg hs, if_neg h1, if_neg h2, if_neg h3]

/-- C5 witness: with the unrecognized source `"bogus"`, empty content yields
`ok []` while the non-empty content `"x"` yields the invalid-source error. -/
theorem C5_invalid_input_amended_witness :
    UserStoryExtractor.extract_user_stories UserStoryExtractor.exNoCands
      UserStoryExtractor.exNoCands UserStoryExtractor.exNoCands
      UserStoryExtractor.exMaxSim1 UserStoryExtractor.exIds
      "bogus" "sid" (UserStoryExtractor.PyVal.str "") "pid" (7/10) true =
      Except.ok [] ∧
    UserStoryExtractor.extract_user_stories UserStoryExtractor.exNoCands
      UserStoryExtractor.exNoCands UserStoryExtractor.exNoCands
      UserStoryExtractor.exMaxSim1 UserStoryExtractor.exIds
      "bogus" "sid" (UserStoryExtractor.PyVal.str "x") "pid" (7/10) true =
      Except.error "source must be one of: 'review' | 'news' | 'tweet'" :=
  ⟨(C5_invalid_input_amended UserStoryExtractor.exNoCands UserStoryExtractor.exNoCands
      UserStoryExtractor.exNoCands UserStoryExtractor.exMaxSim1 UserStoryExtractor.exIds
      "bogus" "sid" "pid" (7/10) true).1 _ (Or.inr rfl),
   (C5_invalid_input_amended UserStoryExtractor.exNoCands UserStoryExtractor.exNoCands
      UserStoryExtractor.exNoCands UserStoryExtractor.exMaxSim1 UserStoryExtractor.exIds
      "bogus" "sid" "pid" (7/10) true).2 "x" (by decide) (by decide) (by decide) (by decide)⟩

namespace UserStoryExtractor

theorem countP_dedupe_zero :
    ∀ (l : List (Cand × ℚ)) (seen : List (String × String × String × String))
      (k : String × String × String × String), k ∈ seen →
      (dedupeByKey seen l).countP (fun c => candKey c.1 == k) = 0 := by
  intro l
  induction l with
  | nil => intro seen k _; rfl
  | cons c cs ih =>
    intro seen k hk
    by_cases hc : candKey c.1 ∈ seen
    · rw [dedupeByKey, if_pos hc]
      exact ih seen k hk
    · rw [dedupeByKey, if_neg hc]
      have hne : (candKey c.1 == k) = false := by
        simp only [beq_eq_false_iff_ne, ne_eq]
        intro he
        exact hc (he ▸ hk)
      rw [List.countP_cons, hne]
      simp only [Bool.false_eq_true, if_false, Nat.add_zero]
      exact ih (candKey c.1 :: seen) k (List.mem_cons_of_mem _ hk)

theorem countP_dedupe_one :
    ∀ (l : List (Cand × ℚ)) (seen : List (String × String × String × String))
      (k : String × String × String × String), k ∉ seen →
      (∃ c ∈ l, candKey c.1 = k) →
      (dedupeByKey seen l).countP (fun c => candKey c.1 == k) = 1 := by
  intro l
  induction l with
  | nil =>
    intro seen k _ hex
    obtain ⟨c, hc, _⟩ := hex
    simp at hc
  | cons c cs ih =>
    intro seen k hk hex
    by_cases hc : candKey c.1 ∈ seen
    · rw [dedupeByKey, if_pos hc]
      have hex2 : ∃ x ∈ cs, candKey x.1 = k := by
        obtain ⟨x, hx, hxe⟩ := hex
        rcases List.mem_cons.mp hx with rfl | hx2
        · exact absurd (hxe ▸ hc) hk
        · exact ⟨x, hx2, hxe⟩
      exact ih seen k hk hex2
    · rw [dedupeByKey, if_neg hc]
      by_cases hck : candKey c.1 = k
      · rw [List.countP_cons, if_pos (by simpa using hck)]
        rw [countP_dedupe_zero cs (candKey c.1 :: seen) k
          (by rw [hck]; exact List.mem_cons_self k seen)]
      · rw [List.countP_cons, if_neg (by simpa using hck)]
        have hex2 : ∃ x ∈ cs, candKey x.1 = k := by
          obtain ⟨x, hx, hxe⟩ := hex
          rcases List.mem_cons.mp hx with rfl | hx2
          · exact absurd hxe hck
          · exact ⟨x, hx2, hxe⟩
        rw [Nat.add_zero]
        refine ih (candKey c.1 :: seen) k ?_ hex2
        intro hmem
        rcases List.mem_cons.mp hmem with he | he
        · exact hck he.symm
        · exact hk he

theorem find?_dedupe :
    ∀ (l : List (Cand × ℚ)) (seen : List (String × String × String × String))
      (k : String × String × String × String), k ∉ seen →
      (dedupeByKey seen l).find? (fun c => candKey c.1 == k) =
        l.find? (fun c => candKey c.1 == k) := by
  intro l
  induction l with
  | nil => intro seen k _; rfl
  | cons c cs ih =>
    intro seen k hk
    by_cases hc : candKey c.1 ∈ seen
    · rw [dedupeByKey, if_pos hc]
      have hne : ¬ ((fun c => candKey c.1 == k) c = true) := by
        simp only [beq_iff_eq]
        intro he
        exact hk (he ▸ hc)
      rw [List.find?_cons_of_neg cs hne]
      exact ih seen k hk
    · rw [dedupeByKey, if_neg hc]
      by_cases hck : candKey c.1 = k
      · rw [List.find?_cons_of_pos _ (by simpa using hck),
          List.find?_cons_of_pos _ (by simpa using hck)]
      · rw [List.find?_cons_of_neg _ (by simpa using hck),
          List.find?_cons_of_neg _ (by simpa using hck)]
        refine ih (candKey c.1 :: seen) k ?_
        intro hmem
        rcases List.mem_cons.mp hmem with he | he
        · exact hck he.symm
        · exact hk he

theorem countP_buildModels (ids : ℕ → String) (source source_id project_id : String)
    (k : String × String × String × String) :
    ∀ (l : List (Cand × ℚ)) (i : ℕ),
      ((l.enumFrom i).map (fun p => mkModel ids source source_id project_id p.1 p.2)).countP
        (fun m => modelKey m == k) = l.countP (fun c => candKey c.1 == k) := by
  intro l
  induction l with
  | nil => intro i; rfl
  | cons c cs ih =>
    intro i
    rw [List.enumFrom_cons, List.map_cons, List.countP_cons, List.countP_cons]
    have hkey : modelKey (mkModel ids source source_id project_id i c) = candKey c.1 := rfl
    rw [hkey, ih (i + 1)]

theorem find?_cons_pos {α : Type} (p : α → Bool) (a : α) (l : List α)
    (h : p a = true) : (a :: l).find? p = some a :=
  List.find?_cons_of_pos l h

theorem find?_cons_neg {α : Type} (p : α → Bool) (a : α) (l : List α)
    (h : p a = false) : (a :: l).find? p = l.find? p :=
  List.find?_cons_of_neg l (by simp [h])

theorem find?_buildModels (ids : ℕ → String) (source source_id project_id : String)
    (k : String × String × String × String) :
    ∀ (l : List (Cand × ℚ)) (i : ℕ),
      (((l.enumFrom i).map (fun p => mkModel ids source source_id project_id p.1 p.2)).find?
          (fun m => modelKey m == k)).map (fun m => (m.who, m.what, m.why, m.full_sentence)) =
        (l.find? (fun c => candKey c.1 == k)).map
          (fun c => (c.1.who, c.1.what, c.1.why, c.1.full_sentence)) := by
  intro l
  induction l with
  | nil => intro i; rfl
  | cons c cs ih =>
    intro i
    rw [List.enumFrom_cons, List.map_cons]
    by_cases hck : candKey c.1 = k
    · have hb : (candKey c.1 == k) = true := by simpa using hck
      rw [find?_cons_pos (fun m => modelKey m == k)
          (mkModel ids source source_id project_id i c) _ hb,
        find?_cons_pos (fun q => candKey q.1 == k) c cs hb]
      rfl
    · have hb : (candKey c.1 == k) = false := by simpa using hck
      rw [find?_cons_neg (fun m => modelKey m == k)
          (mkModel ids source source_id project_id i c) _ hb,
        find?_cons_neg (fun q => candKey q.1 == k) c cs hb]
      exact ih (i + 1)

theorem processCandidates_dedupe_spec (maxSim : String → ℚ) (ids : ℕ → String)
    (source source_id project_id : String) (min_similarity : ℚ)
    (cands : List Cand) (k : String × String × String × String)
    (hk : ∃ c ∈ filteredCands maxSim min_similarity cands, candKey c.1 = k) :
    (processCandidates maxSim ids source source_id project_id min_similarity true
        cands).countP (fun m => modelKey m == k) = 1 ∧
    ((processCandidates maxSim ids source source_id project_id min_similarity true
        cands).find? (fun m => modelKey m == k)).map
        (fun m => (m.who, m.what, m.why, m.full_sentence)) =
      ((filteredCands maxSim min_similarity cands).find?
        (fun c => candKey c.1 == k)).map
        (fun c => (c.1.who, c.1.what, c.1.why, c.1.full_sentence)) := by
  have he : processCandidates maxSim ids source source_id project_id min_similarity true
      cands = ((dedupeByKey [] (filteredCands maxSim min_similarity cands)).enumFrom 0).map
        (fun p => mkModel ids source source_id project_id p.1 p.2) := rfl
  rw [he]
  constructor
  · rw [countP_buildModels]
    exact countP_dedupe_one _ [] k (List.not_mem_nil k) hk
  · rw [find?_buildModels]
    rw [find?_dedupe _ [] k (List.not_mem_nil k)]

end UserStoryExtractor

/-- C7: with `dedupe=true`, whenever the surviving (filtered) candidates
contain a candidate with a given case-insensitive
`(who, what, why, full_sentence)` key — in particular whenever two surviving
candidates share that key — the returned record list contains exactly one
record with that key, and its fields are those of the first surviving
candidate with that key. -/
theorem C7_dedupe_first_occurrence
    (extractReview extractNews extractTweet : String → List UserStoryExtractor.Cand)
    (maxSim : String → ℚ) (ids : ℕ → String)
    (source source_id : String) (s : String) (project_id : String)
    (min_similarity : ℚ)
    (hsrc : source = "review" ∨ source = "news" ∨ source = "tweet") (hs : s ≠ "")
    (k : String × String × String × String)
    (hk : ∃ c ∈ UserStoryExtractor.filteredCands maxSim min_similarity
        (UserStoryExtractor.candidatesFor extractReview extractNews extractTweet source s),
      UserStoryExtractor.candKey c.1 = k) :
    ∃ models,
      UserStoryExtractor.extract_user_stories extractReview extractNews extractTweet
        maxSim ids source source_id (UserStoryExtractor.PyVal.str s) project_id
        min_similarity true = Except.ok models ∧
      models.countP (fun m => UserStoryExtractor.modelKey m == k) = 1 ∧
      (models.find? (fun m => UserStoryExtractor.modelKey m == k)).map
          (fun m => (m.who, m.what, m.why, m.full_sentence)) =
        ((UserStoryExtractor.filteredCands maxSim min_similarity
            (UserStoryExtractor.candidatesFor extractReview extractNews extractTweet
              source s)).find? (fun c => UserStoryExtractor.candKey c.1 == k)).map
          (fun c => (c.1.who, c.1.what, c.1.why, c.1.full_sentence)) := by
  rcases hsrc with rfl | rfl | rfl
  · have hcand : UserStoryExtractor.candidatesFor extractReview extractNews extractTweet
        "review" s = extractReview s := rfl
    rw [hcand] at hk ⊢
    refine ⟨UserStoryExtractor.processCandidates maxSim ids "review" source_id project_id
      min_similarity true (extractReview s), ?_, ?_, ?_⟩
    · show (if s = "" then Except.ok [] else _) = _
      rw [if_neg hs, if_pos rfl]
    · exact (UserStoryExtractor.processCandidates_dedupe_spec maxSim ids "review"
        source_id project_id min_similarity (extractReview s) k hk).1
    · exact (UserStoryExtractor.processCandidates_dedupe_spec maxSim ids "review"
        source_id project_id min_similarity (extractReview s) k hk).2
  · have hcand : UserStoryExtractor.candidatesFor extractReview extractNews extractTweet
        "news" s = extractNews s := rfl
    rw [hcand] at hk ⊢
    refine ⟨UserStoryExtractor.processCandidates maxSim ids "news" source_id project_id
      min_similarity true (extractNews s), ?_, ?_, ?_⟩
    · show (if s = "" then Except.ok [] else _) = _
      rw [if_neg hs, if_neg (show ¬ ("news" = "review") by decide), if_pos rfl]
    · exact (UserStoryExtractor.processCandidates_dedupe_spec maxSim ids "news"
        source_id project_id min_similarity (extractNews s) k hk).1
    · exact (UserStoryExtractor.processCandidates_dedupe_spec maxSim ids "news"
        source_id project_id min_similarity (extractNews s) k hk).2
  · have hcand : UserStoryExtractor.candidatesFor extractReview extractNews extractTweet
        "tweet" s = extractTweet s := rfl
    rw [hcand] at hk ⊢
    refine ⟨UserStoryExtractor.processCandidates maxSim ids "tweet" source_id project_id
      min_similarity true (extractTweet s), ?_, ?_, ?_⟩
    · show (if s = "" then Except.ok [] else _) = _
      rw [if_neg hs, if_neg (show ¬ ("tweet" = "review") by decide),
        if_neg (show ¬ ("tweet" = "news") by decide), if_pos rfl]
    · exact (UserStoryExtractor.processCandidates_dedupe_spec maxSim ids "tweet"
        source_id project_id min_similarity (extractTweet s) k hk).1
    · exact (UserStoryExtractor.processCandidates_dedupe_spec maxSim ids "tweet"
        source_id project_id min_similarity (extractTweet s) k hk).2

namespace UserStoryExtractor

/-- A surviving candidate. -/
def exCandA : Cand := { who := "User", what := "Export Data", why := none, full_sentence := "S" }

/-- A second candidate identical to the first ignoring case. -/
def exCandB : Cand := { who := "user", what := "export data", why := none, full_sentence := "s" }

/-- An extractor producing the two case-duplicate candidates. -/
def exTwoCands : String → List Cand := fun _ => [exCandA, exCandB]

/-- Their shared case-insensitive dedup key. -/
def exKey : String × String × String × String := candKey exCandA

end UserStoryExtractor

/-- C7 witness: with two surviving candidates identical ignoring case, both
pass the filter (count 2) but exactly one record with their key is returned,
carrying the first occurrence's fields. -/
theorem C7_dedupe_first_occurrence_witness :
    ((UserStoryExtractor.filteredCands UserStoryExtractor.exMaxSim1 1
        (UserStoryExtractor.candidatesFor UserStoryExtractor.exTwoCands
          UserStoryExtractor.exNoCands UserStoryExtractor.exNoCands "review" "x")).countP
      (fun c => UserStoryExtractor.candKey c.1 == UserStoryExtractor.exKey) = 2) ∧
    (∃ models,
      UserStoryExtractor.extract_user_stories UserStoryExtractor.exTwoCands
        UserStoryExtractor.exNoCands UserStoryExtractor.exNoCands
        UserStoryExtractor.exMaxSim1 UserStoryExtractor.exIds
        "review" "sid" (UserStoryExtractor.PyVal.str "x") "pid"
        1 true = Except.ok models ∧
      models.countP (fun m => UserStoryExtractor.modelKey m == UserStoryExtractor.exKey) = 1 ∧
      (models.find? (fun m => UserStoryExtractor.modelKey m == UserStoryExtractor.exKey)).map
          (fun m => (m.who, m.what, m.why, m.full_sentence)) =
        ((UserStoryExtractor.filteredCands UserStoryExtractor.exMaxSim1 1
            (UserStoryExtractor.candidatesFor UserStoryExtractor.exTwoCands
              UserStoryExtractor.exNoCands UserStoryExtractor.exNoCands "review" "x")).find?
          (fun c => UserStoryExtractor.candKey c.1 == UserStoryExtractor.exKey)).map
          (fun c => (c.1.who, c.1.what, c.1.why, c.1.full_sentence))) :=
  ⟨by decide,
    C7_dedupe_first_occurrence UserStoryExtractor.exTwoCands UserStoryExtractor.exNoCands
      UserStoryExtractor.exNoCands UserStoryExtractor.exMaxSim1 UserStoryExtractor.exIds
      "review" "sid" "x" "pid" 1 (Or.inl rfl) (by decide)
      UserStoryExtractor.exKey (by decide)⟩

namespace AspectIdentifier

theorem mem_distinctTexts : ∀ (l seen : List String) (a : String),
    a ∈ distinctTexts seen l ↔ (a ∈ l ∧ a ∉ seen) := by
  intro l
  induction l with
  | nil => intro seen a; simp [distinctTexts]
  | cons x xs ih =>
    intro seen a
    by_cases hx : x ∈ seen
    · rw [distinctTexts, if_pos hx, ih]
      constructor
      · rintro ⟨h1, h2⟩
        exact ⟨List.mem_cons_of_mem x h1, h2⟩
      · rintro ⟨h1, h2⟩
        rcases List.mem_cons.mp h1 with rfl | h1
        · exact absurd hx h2
        · exact ⟨h1, h2⟩
    · rw [distinctTexts, if_neg hx]
      constructor
      · intro h
        rcases List.mem_cons.mp h with rfl | h
        · exact ⟨List.mem_cons_self a xs, hx⟩
        · obtain ⟨h1, h2⟩ := (ih (x :: seen) a).mp h
          refine ⟨List.mem_cons_of_mem x h1, fun hs => h2 (List.mem_cons_of_mem x hs)⟩
      · rintro ⟨h1, h2⟩
        rcases List.mem_cons.mp h1 with rfl | h1
        · exact List.mem_cons_self a _
        · by_cases hax : a = x
          · subst hax; exact List.mem_cons_self a _
          · exact List.mem_cons_of_mem x ((ih (x :: seen) a).mpr
              ⟨h1, fun hs => (List.mem_cons.mp hs).elim hax h2⟩)

end AspectIdentifier

namespace UsecaseDiagramService

/-! ## Embedding of `_chunk` and `_render_puml_chunks` (usecase_diagram_service.py)

The `usecase_map` dict is an association list in insertion order; `edges` is
the Python set of `(actor_label, usecase_key)` pairs, modelled as a list in
the set's (arbitrary) enumeration order — every property proved below is
order-independent. -/

/-- A `usecase_map` value: display label and merged why annotations. -/
structure UCData where
  label : String
  whys : List String
deriving DecidableEq, Inhabited

/-- The chunk size constant of the source. -/
def MAX_USECASES_PER_DIAGRAM : ℕ := 6

/-- Embedding of `_chunk`: `[seq[i:i+size] for i in range(0, len(seq), size)]`
for a positive `size` (Python raises on a zero step). -/
def pychunk {α : Type} (seq : List α) (size : ℕ) : List (List α) :=
  if h : seq.length = 0 ∨ size = 0 then []
  else seq.take size :: pychunk (seq.drop size) size
termination_by seq.length
decreasing_by
  simp only [not_or] at h
  rw [List.length_drop]
  omega

/-- The per-chunk render result: the chunk's use-case keys, the edges kept
for the chunk, the actors declared, and the PlantUML lines emitted. -/
structure ChunkOut where
  ckeys : List String
  chunk_edges : List (String × String)
  actors : List String
  lines : List String
deriving DecidableEq, Inhabited

/-- Render one chunk: keep only the edges whose use-case key is in the
chunk, declare aliases `U1..`/`A1..` per chunk, declare only the actors
that appear in a kept edge (in first-appearance order, as the
`actor_alias` dict is filled), and emit the PlantUML text lines. -/
def renderChunk (project_id : String) (ucmap : List (String × UCData))
    (edges : List (String × String)) (ci total : ℕ) (ckeys : List String) :
    ChunkOut :=
  let chunk_edges := edges.filter (fun e => decide (e.2 ∈ ckeys))
  let actors := AspectIdentifier.distinctTexts [] (chunk_edges.map Prod.fst)
  let ucAlias := fun key => "U" ++ toString (ckeys.indexOf key + 1)
  let actorAlias := fun a => "A" ++ toString (actors.indexOf a + 1)
  { ckeys := ckeys
    chunk_edges := chunk_edges
    actors := actors
    lines := ["@startuml", "left to right direction",
        "title Project: " ++ project_id ++ " (part " ++ toString ci ++ "/" ++
          toString total ++ ")"]
      ++ actors.map (fun a => "actor \"" ++ a ++ "\" as " ++ actorAlias a)
      ++ ckeys.map (fun key =>
          "(" ++ ((ucmap.find? (fun q => q.1 == key)).getD default).2.label ++
            ") as " ++ ucAlias key)
      ++ chunk_edges.map (fun e => actorAlias e.1 ++ " --> " ++ ucAlias e.2)
      ++ ["@enduml"] }

/-- `_render_puml_chunks` generalized over the chunk size: chunk the use-case
keys and render each chunk independently. -/
def renderPumlChunksWith (size : ℕ) (project_id : String)
    (ucmap : List (String × UCData)) (edges : List (String × String)) :
    List ChunkOut :=
  (pychunk (ucmap.map Prod.fst) size).enum.map
    (fun p => renderChunk project_id ucmap edges (p.1 + 1)
      (pychunk (ucmap.map Prod.fst) size).length p.2)

/-- The source's `_render_puml_chunks`: the joined PlantUML text of each
chunk at the fixed size 6. -/
def render_puml_chunks (project_id : String) (ucmap : List (String × UCData))
    (edges : List (String × String)) : List String :=
  (renderPumlChunksWith MAX_USECASES_PER_DIAGRAM project_id ucmap edges).map
    (fun ch => "\n".intercalate ch.lines)

theorem pychunk_length_aux {α : Type} (k : ℕ) (hk : 0 < k) :
    ∀ (n : ℕ) (l : List α), l.length = n →
      (pychunk l k).length = if l.length = 0 then 0 else (l.length - 1) / k + 1 := by
  intro n
  induction n using Nat.strong_induction_on with
  | _ n ih =>
    intro l hl
    rw [pychunk]
    by_cases h : l.length = 0 ∨ k = 0
    · rw [dif_pos h]
      rcases h with h | h
      · rw [if_pos h]
        rfl
      · omega
    · rw [dif_neg h]
      simp only [not_or] at h
      rw [List.length_cons]
      have hdl : (l.drop k).length = l.length - k := List.length_drop k l
      have hrec := ih (l.drop k).length (by rw [hdl]; omega) (l.drop k) rfl
      rw [hrec, hdl]
      by_cases hle : l.length ≤ k
      · rw [if_pos (by omega), if_neg h.1]
        have hz : (l.length - 1) / k = 0 := Nat.div_eq_of_lt (by omega)
        omega
      · rw [if_neg (by omega), if_neg h.1]
        have he : l.length - 1 = (l.length - k - 1) + k := by omega
        rw [he, Nat.add_div_right _ hk]

theorem pychunk_length {α : Type} (l : List α) (k : ℕ) (hk : 0 < k) :
    (pychunk l k).length = (l.length + k - 1) / k := by
  rw [pychunk_length_aux k hk l.length l rfl]
  by_cases h : l.length = 0
  · rw [if_pos h, h]
    exact (Nat.div_eq_of_lt (by omega)).symm
  · rw [if_neg h]
    have he : l.length + k - 1 = (l.length - 1) + k := by omega
    rw [he, Nat.add_div_right _ hk]

theorem pychunk_mem_length {α : Type} (k : ℕ) :
    ∀ (n : ℕ) (l : List α), l.length = n → ∀ ch ∈ pychunk l k, ch.length ≤ k := by
  intro n
  induction n using Nat.strong_induction_on with
  | _ n ih =>
    intro l hl ch hch
    rw [pychunk] at hch
    by_cases h : l.length = 0 ∨ k = 0
    · rw [dif_pos h] at hch
      simp at hch
    · rw [dif_neg h] at hch
      simp only [not_or] at h
      rcases List.mem_cons.mp hch with rfl | hch2
      · rw [List.length_take]
        exact min_le_left _ _
      · have hdl : (l.drop k).length = l.length - k := List.length_drop k l
        exact ih (l.drop k).length (by rw [hdl]; omega) (l.drop k) rfl ch hch2

theorem snd_mem_enumFrom {α : Type} :
    ∀ (l : List α) (n : ℕ) (p : ℕ × α), p ∈ l.enumFrom n → p.2 ∈ l := by
  intro l
  induction l with
  | nil => intro n p h; simp at h
  | cons a as ih =>
    intro n p h
    rw [List.enumFrom_cons] at h
    rcases List.mem_cons.mp h with rfl | h2
    · exact List.mem_cons_self a as
    · exact List.mem_cons_of_mem a (ih (n + 1) p h2)

end UsecaseDiagramService

/-- C8: for every chunk size `k > 0` and use-case map with `n` keys, the
synthesizer emits exactly `ceil(n/k)` chunks; each chunk holds at most `k`
use-cases; each chunk's rendered diagram keeps exactly the edges whose
use-case key lies in the chunk, and declares exactly the actors incident to
those kept edges. -/
theorem C8_chunk_partition (k : ℕ) (hk : 0 < k) (project_id : String)
    (ucmap : List (String × UsecaseDiagramService.UCData))
    (edges : List (String × String)) :
    (UsecaseDiagramService.renderPumlChunksWith k project_id ucmap edges).length =
      (ucmap.length + k - 1) / k ∧
    ∀ ch ∈ UsecaseDiagramService.renderPumlChunksWith k project_id ucmap edges,
      ch.ckeys.length ≤ k ∧
      ch.chunk_edges = edges.filter (fun e => decide (e.2 ∈ ch.ckeys)) ∧
      (∀ e ∈ ch.chunk_edges, e ∈ edges ∧ e.2 ∈ ch.ckeys) ∧
      (∀ a : String, a ∈ ch.actors ↔ ∃ e ∈ ch.chunk_edges, e.1 = a) := by
  constructor
  · rw [UsecaseDiagramService.renderPumlChunksWith, List.length_map, List.enum,
      List.enumFrom_length,
      UsecaseDiagramService.pychunk_length _ k hk, List.length_map]
  · intro ch hch
    rw [UsecaseDiagramService.renderPumlChunksWith] at hch
    obtain ⟨p, hp, rfl⟩ := List.mem_map.mp hch
    have hmem : p.2 ∈ UsecaseDiagramService.pychunk (ucmap.map Prod.fst) k :=
      UsecaseDiagramService.snd_mem_enumFrom _ 0 p hp
    refine ⟨?_, rfl, ?_, ?_⟩
    · exact UsecaseDiagramService.pychunk_mem_length k (ucmap.map Prod.fst).length _
        rfl p.2 hmem
    · intro e he
      have := List.mem_filter.mp he
      exact ⟨this.1, by simpa using this.2⟩
    · intro a
      simp only [UsecaseDiagramService.renderChunk]
      rw [AspectIdentifier.mem_distinctTexts]
      constructor
      · rintro ⟨h1, _⟩
        obtain ⟨e, he, rfl⟩ := List.mem_map.mp h1
        exact ⟨e, he, rfl⟩
      · rintro ⟨e, he, rfl⟩
        exact ⟨List.mem_map_of_mem Prod.fst he, List.not_mem_nil _⟩

namespace UsecaseDiagramService

/-- A use-case map with three keys. -/
def exUcmap : List (String × UCData) :=
  [("export data", { label := "Export Data", whys := [] }),
   ("sync data", { label := "Sync Data", whys := [] }),
   ("view reports", { label := "View Reports", whys := [] })]

/-- Edges over two actors and the three use-cases. -/
def exEdges : List (String × String) :=
  [("user", "export data"), ("admin", "view reports"), ("user", "sync data")]

end UsecaseDiagramService

/-- C8 witness: chunking three use-cases at size 2 yields ceil(3/2) = 2
chunks with the per-chunk edge/actor containment properties. -/
theorem C8_chunk_partition_witness :
    0 < 2 ∧
    ((UsecaseDiagramService.renderPumlChunksWith 2 "p" UsecaseDiagramService.exUcmap
        UsecaseDiagramService.exEdges).length =
      (UsecaseDiagramService.exUcmap.length + 2 - 1) / 2 ∧
    ∀ ch ∈ UsecaseDiagramService.renderPumlChunksWith 2 "p"
        UsecaseDiagramService.exUcmap UsecaseDiagramService.exEdges,
      ch.ckeys.length ≤ 2 ∧
      ch.chunk_edges = UsecaseDiagramService.exEdges.filter
        (fun e => decide (e.2 ∈ ch.ckeys)) ∧
      (∀ e ∈ ch.chunk_edges, e ∈ UsecaseDiagramService.exEdges ∧ e.2 ∈ ch.ckeys) ∧
      (∀ a : String, a ∈ ch.actors ↔ ∃ e ∈ ch.chunk_edges, e.1 = a)) :=
  ⟨by decide,
    C8_chunk_partition 2 (by decide) "p" UsecaseDiagramService.exUcmap
      UsecaseDiagramService.exEdges⟩

namespace ClusteringService

/-! ## Model of the external agglomerative clustering (C9)

`AgglomerativeClustering` is an external sklearn collaborator (not code of
this repository); the spec describes it as bottom-up average-linkage
clustering over a distance matrix, cut at `distance_threshold`. -/

/-- Sum of all pairwise distances between two index clusters. -/
def pairSum (d : ℕ → ℕ → ℚ) (A B : List ℕ) : ℚ :=
  (A.map (fun i => (B.map (fun j => d i j)).sum)).sum

/-- Average linkage: the mean pairwise distance between two clusters. -/
def linkDist (d : ℕ → ℕ → ℚ) (A B : List ℕ) : ℚ :=
  pairSum d A B / ((A.length * B.length : ℕ) : ℚ)

/-- All cluster pairs (by position, first index smaller) with their linkage
distance. -/
def pairList (d : ℕ → ℕ → ℚ) (cl : List (List ℕ)) : List (ℕ × ℕ × ℚ) :=
  (List.range cl.length).flatMap (fun i =>
    ((List.range cl.length).filter (fun j => i < j)).map (fun j =>
      (i, j, linkDist d (cl.getD i []) (cl.getD j []))))

/-- The first pair attaining the minimal linkage distance. -/
def bestPair (ps : List (ℕ × ℕ × ℚ)) : Option (ℕ × ℕ × ℚ) :=
  ps.foldl (fun acc p =>
    match acc with
    | none => some p
    | some q => if p.2.2 < q.2.2 then some p else some q) none

/-- Merge the closest pair of clusters, recording the merge distance. -/
def mergeStep (d : ℕ → ℕ → ℚ) (cl : List (List ℕ)) :
    Option (ℚ × List (List ℕ)) :=
  match bestPair (pairList d cl) with
  | none => none
  | some (i, j, dist) =>
    some (dist, ((cl.eraseIdx j).eraseIdx i) ++ [cl.getD i [] ++ cl.getD j []])

/-- Run greedy merges to completion (the full dendrogram), collecting the
merge distances in order. -/
def mergeSteps (d : ℕ → ℕ → ℚ) : ℕ → List (List ℕ) → List ℚ
  | 0, _ => []
  | fuel + 1, cl =>
    match mergeStep d cl with
    | none => []
    | some (dist, cl2) => dist :: mergeSteps d fuel cl2

/-- The distances of the `n - 1` merges of the full average-linkage tree on
`n` points. -/
def mergeDistances (n : ℕ) (d : ℕ → ℕ → ℚ) : List ℚ :=
  mergeSteps d n ((List.range n).map (fun i => [i]))

/-- Modelled from the spec: the number of clusters sklearn's external
`AgglomerativeClustering` (average linkage, `n_clusters=None`) reports when
cutting the full merge tree at `distance_threshold` — the number of merge
distances at or above the threshold, plus one (`n_clusters_ =
count_nonzero(distances_ >= distance_threshold) + 1`); the merge tree itself
does not depend on the threshold. -/
def nClustersAtThreshold (n : ℕ) (d : ℕ → ℕ → ℚ) (t : ℚ) : ℕ :=
  ((mergeDistances n d).countP (fun dd => decide (t ≤ dd))) + 1

/-- The all-ones distance matrix (mutually equidistant points). -/
def exDistOne : ℕ → ℕ → ℚ := fun _ _ => 1

end ClusteringService

/-- C9: for a fixed record set (hence a fixed distance matrix and a fixed
merge tree), raising the distance threshold never increases the number of
clusters the agglomerative clustering produces. -/
theorem C9_threshold_monotone (n : ℕ) (d : ℕ → ℕ → ℚ) (t1 t2 : ℚ)
    (h : t1 < t2) :
    ClusteringService.nClustersAtThreshold n d t2 ≤
      ClusteringService.nClustersAtThreshold n d t1 := by
  unfold ClusteringService.nClustersAtThreshold
  refine Nat.add_le_add_right (List.countP_mono_left ?_) 1
  intro x _ hpx
  simp only [decide_eq_true_eq] at hpx ⊢
  exact le_trans (le_of_lt h) hpx

/-- C9 witness: the monotonicity applied on three equidistant points at
thresholds 0 < 1. -/
theorem C9_threshold_monotone_witness :
    (0 : ℚ) < 1 ∧
    ClusteringService.nClustersAtThreshold 3 ClusteringService.exDistOne 1 ≤
      ClusteringService.nClustersAtThreshold 3 ClusteringService.exDistOne 0 :=
  ⟨by decide, C9_threshold_monotone 3 ClusteringService.exDistOne 0 1 (by decide)⟩
